import Mathlib

/-!
# Verification of the flowebb tide-prediction backend

A shallow embedding, in Lean 4, of the cache / orchestration / interpolation
core of the flowebb Go backend, together with proofs and refutations of the
frozen specification claims.

Conventions of the embedding:
* Go `int64` millisecond/second timestamps become `Int` (no overflow is
  reachable at the magnitudes involved; Go's `/` on integers truncates
  toward zero, which is `Int.div` here, and calendar arithmetic uses
  floor division `Int.fdiv` where the Go `time` package rounds down).
* Go `float64` heights are carried in `ℚ`.  Properties that do not hinge
  on rounding are settled against the exact-arithmetic idealization of the
  interpolation formulas; where rounding decides the property, a faithful
  IEEE 754 binary64 model (`roundFloat` and the `f…` operations, with
  round-to-nearest-even after every step) is used instead.
* Stateful code becomes explicit state passing; external collaborators
  (the NOAA HTTP endpoints, DynamoDB) become function parameters that stand
  for the decoded result of the corresponding call.
* `sort.Search` is embedded by its documented contract (the least index at
  which the monotone predicate holds, or the length): `List.findIdx`.
-/

set_option maxRecDepth 100000

namespace Flowebb

/-- Tide type discriminator, from `internal/models/tide.go`
(`RISING`, `FALLING`, `HIGH`, `LOW`). -/
inductive TideType where
  | RISING | FALLING | HIGH | LOW
deriving DecidableEq, Repr

/-- `models.TidePrediction`: timestamp in ms since epoch, local-time string,
height (Go `float64`, modelled as `ℚ`). -/
structure TidePrediction where
  timestamp : Int
  localTime : String
  height : ℚ
deriving DecidableEq, Repr

/-- `models.TideExtreme`: a `TidePrediction` plus its `TideType`. -/
structure TideExtreme where
  type : TideType
  timestamp : Int
  localTime : String
  height : ℚ
deriving DecidableEq, Repr

/-- `models.TidePredictionRecord` (src/unnamed/part_001): the per-station
per-day unit of caching. -/
structure TidePredictionRecord where
  stationID : String
  date : String
  stationType : String
  predictions : List TidePrediction
  extremes : List TideExtreme
  lastUpdated : Int
  ttl : Int
deriving DecidableEq, Repr

/-! ## Calendar helpers

The Go code formats and parses wall-clock strings through the `time`
package with a fixed zone offset.  We embed the proleptic-Gregorian
conversions it performs: `daysFromCivil` (date → days since 1970-01-01)
and `civilFromDays` (its inverse), the standard Hinnant algorithms, which
agree with Go's `time` package over its whole range. -/

/-- Leap-year test of the Gregorian calendar. -/
def isLeapYear (y : Int) : Bool :=
  (y % 4 == 0 && y % 100 != 0) || (y % 400 == 0)

/-- Number of days in a month (1-12) of year `y`. -/
def daysInMonth (y m : Int) : Int :=
  if m = 2 then (if isLeapYear y then 29 else 28)
  else if m = 4 ∨ m = 6 ∨ m = 9 ∨ m = 11 then 30
  else 31

/-- Days since 1970-01-01 of the civil date `y-m-d` (Hinnant's
`days_from_civil`). -/
def daysFromCivil (y m d : Int) : Int :=
  let y' := if m ≤ 2 then y - 1 else y
  let era := (if 0 ≤ y' then y' else y' - 399).fdiv 400
  let yoe := y' - era * 400
  let mp := (m + 9) % 12
  let doy := (153 * mp + 2).fdiv 5 + d - 1
  let doe := yoe * 365 + yoe.fdiv 4 - yoe.fdiv 100 + doy
  era * 146097 + doe - 719468

/-- Civil date `(y, m, d)` of the day `z` counted from 1970-01-01
(Hinnant's `civil_from_days`). -/
def civilFromDays (z : Int) : Int × Int × Int :=
  let z' := z + 719468
  let era := (if 0 ≤ z' then z' else z' - 146096).fdiv 146097
  let doe := z' - era * 146097
  let yoe := (doe - doe.fdiv 1460 + doe.fdiv 36524 - doe.fdiv 146096).fdiv 365
  let y := yoe + era * 400
  let doy := doe - (365 * yoe + yoe.fdiv 4 - yoe.fdiv 100)
  let mp := (5 * doy + 2).fdiv 153
  let d := doy - (153 * mp + 2).fdiv 5 + 1
  let m := if mp < 10 then mp + 3 else mp - 9
  (if m ≤ 2 then y + 1 else y, m, d)

/-- Left-pad a natural number's decimal string with zeros to width `w`
(the fixed-width fields of Go's reference layout). -/
def padNum (w : Nat) (n : Int) : String :=
  let s := toString n.toNat
  String.mk (List.replicate (w - s.length) '0') ++ s

/-- `formatLocalTime` (service.go): format epoch-ms `timestamp` in the fixed
zone of `offset` seconds with layout `"2006-01-02T15:04:05"`.  Go first
truncates to seconds via `time.Unix(timestamp/1000, 0)` (`/` truncating
toward zero) and then renders the wall clock of the shifted instant. -/
def formatLocalTime (offset : Int) (timestamp : Int) : String :=
  let sec := timestamp / 1000 + offset
  let day := sec.fdiv 86400
  let sod := sec - day * 86400
  let (y, m, d) := civilFromDays day
  padNum 4 y ++ "-" ++ padNum 2 m ++ "-" ++ padNum 2 d ++ "T" ++
    padNum 2 (sod.fdiv 3600) ++ ":" ++ padNum 2 ((sod.fdiv 60) % 60) ++ ":" ++
    padNum 2 (sod % 60)

/-- Render a day number as the `"2006-01-02"` layout (Go
`date.Format("2006-01-02")` for a midnight `time.Time` of that day). -/
def formatDateISO (day : Int) : String :=
  let (y, m, d) := civilFromDays day
  padNum 4 y ++ "-" ++ padNum 2 m ++ "-" ++ padNum 2 d

/-- Decimal digit value of a character, if it is one. -/
def digitVal (c : Char) : Option Int :=
  if '0' ≤ c ∧ c ≤ '9' then some (Int.ofNat (c.toNat - '0'.toNat)) else none

/-- Parse exactly `n` digits from the front of a character list
(Go's fixed-width numeric layout fields). -/
def parseFixedNum : Nat → List Char → Option (Int × List Char)
  | 0, cs => some (0, cs)
  | n + 1, [] => (fun _ => none) n
  | n + 1, c :: cs => do
    let v ← digitVal c
    let (rest, cs') ← parseFixedNum n cs
    pure (v * (10 ^ n : Nat) + rest, cs')

/-- Consume a literal character. -/
def parseLit (c : Char) : List Char → Option (List Char)
  | [] => none
  | c' :: cs => if c' = c then some cs else none

/-- Parse the `"2006-01-02"` layout (Go `time.Parse`), validating the
month and day ranges as Go does.  Returns the civil triple. -/
def parseDateISO (s : String) : Option (Int × Int × Int) := do
  let (y, cs) ← parseFixedNum 4 s.toList
  let cs ← parseLit '-' cs
  let (m, cs) ← parseFixedNum 2 cs
  let cs ← parseLit '-' cs
  let (d, cs) ← parseFixedNum 2 cs
  if cs = [] ∧ 1 ≤ m ∧ m ≤ 12 ∧ 1 ≤ d ∧ d ≤ daysInMonth y m then
    pure (y, m, d)
  else none

/-- Parse the `"2006-01-02T15:04:05"` layout (Go `time.Parse`, no zone ⇒
UTC) returning the epoch milliseconds `t.UnixMilli()`. -/
def parseDateTimeISO (s : String) : Option Int := do
  let (y, cs) ← parseFixedNum 4 s.toList
  let cs ← parseLit '-' cs
  let (mo, cs) ← parseFixedNum 2 cs
  let cs ← parseLit '-' cs
  let (d, cs) ← parseFixedNum 2 cs
  let cs ← parseLit 'T' cs
  let (h, cs) ← parseFixedNum 2 cs
  let cs ← parseLit ':' cs
  let (mi, cs) ← parseFixedNum 2 cs
  let cs ← parseLit ':' cs
  let (sec, cs) ← parseFixedNum 2 cs
  if cs = [] ∧ 1 ≤ mo ∧ mo ≤ 12 ∧ 1 ≤ d ∧ d ≤ daysInMonth y mo ∧
      h ≤ 23 ∧ mi ≤ 59 ∧ sec ≤ 59 then
    pure ((daysFromCivil y mo d * 86400 + h * 3600 + mi * 60 + sec) * 1000)
  else none

end Flowebb

/-! ## Record validation (`internal/models/tide.go`, `src/unnamed/part_001`) -/

namespace Flowebb

/-- Absolute value helper used inline by `Validate` (`timeDiff` closure). -/
def timeDiff (a : Int) : Int := if a < 0 then -a else a

/-- `TidePrediction.Validate` (tide.go): positive timestamp; if `LocalTime`
is non-empty it must parse with the `"2006-01-02T15:04:05"` layout and lie
within 24 hours of `Timestamp`. -/
def TidePrediction.validate (tp : TidePrediction) : Except String Unit := do
  if tp.timestamp ≤ 0 then
    throw ("invalid timestamp: " ++ toString tp.timestamp)
  if tp.localTime ≠ "" then
    match parseDateTimeISO tp.localTime with
    | none => throw ("invalid local time format: " ++ tp.localTime)
    | some ms =>
      if timeDiff (ms - tp.timestamp) > 1000 * 60 * 60 * 24 then
        throw "local time does not match timestamp"
  pure ()

/-- `TideExtreme.Validate` (tide.go): as for predictions, plus the tide type
must be one of the four allowed values (always true in the embedding, kept
for structure). -/
def TideExtreme.validate (te : TideExtreme) : Except String Unit := do
  if te.timestamp ≤ 0 then
    throw ("invalid timestamp: " ++ toString te.timestamp)
  match te.type with
  | .RISING | .FALLING | .HIGH | .LOW => pure ()
  if te.localTime ≠ "" then
    match parseDateTimeISO te.localTime with
    | none => throw ("invalid local time format: " ++ te.localTime)
    | some ms =>
      if timeDiff (ms - te.timestamp) > 1000 * 60 * 60 * 24 then
        throw "local time does not match timestamp"
  pure ()

/-- Validate each element of a list in order, failing with the first error
(the `for i, pred := range` loops of `TidePredictionRecord.Validate`). -/
def validateAll {α : Type} (f : α → Except String Unit) : List α → Except String Unit
  | [] => pure ()
  | x :: xs => do
    f x
    validateAll f xs

/-- `TidePredictionRecord.Validate` (src/unnamed/part_001): station ID and
date required, date in `"2006-01-02"` layout, station type `"R"` or `"S"`,
all predictions and extremes valid. -/
def TidePredictionRecord.validate (r : TidePredictionRecord) : Except String Unit := do
  if r.stationID = "" then throw "station ID is required"
  if r.date = "" then throw "date is required"
  match parseDateISO r.date with
  | none => throw ("invalid date format: " ++ r.date)
  | some _ => pure ()
  if r.stationType ≠ "R" ∧ r.stationType ≠ "S" then
    throw ("invalid station type: " ++ r.stationType)
  validateAll TidePrediction.validate r.predictions
  validateAll TideExtreme.validate r.extremes

/-! ## Interpolation engine (`internal/tide/service.go`) -/

/-- Out-of-range default for the Go slice indexing `predictions[i]`, which
is never reached at the indices the code uses. -/
def dummyPrediction : TidePrediction := ⟨0, "", 0⟩

/-- Out-of-range default for `extremes[i]`, never reached. -/
def dummyExtreme : TideExtreme := ⟨.HIGH, 0, "", 0⟩

/-- `findNearestIndex` (service.go): `sort.Search(len(predictions), f)` with
`f i = predictions[i].Timestamp >= timestamp`; by the contract of
`sort.Search` this is the least index satisfying the predicate, or the
length when none does. -/
def findNearestIndex (predictions : List TidePrediction) (timestamp : Int) : Nat :=
  predictions.findIdx (fun p => timestamp ≤ p.timestamp)

/-- `findNearestExtremeIndex` (service.go): same search over extremes. -/
def findNearestExtremeIndex (extremes : List TideExtreme) (timestamp : Int) : Nat :=
  extremes.findIdx (fun e => timestamp ≤ e.timestamp)

/-- `interpolatePredictions` (service.go): clamp outside the series,
otherwise linear interpolation between the bracketing points.  This is
the exact-real-arithmetic idealization of the Go function (heights in
`ℚ`); it is adequate wherever a property does not hinge on `float64`
rounding — the response pipeline compares and forwards the computed
values structurally.  `interpolatePredictionsFloat` below performs the
same computation at the program's native binary64 precision and is used
where rounding decides the property. -/
def interpolatePredictions (predictions : List TidePrediction) (timestamp : Int) : ℚ :=
  if predictions.length = 0 then 0
  else
    let idx := findNearestIndex predictions timestamp
    if idx = 0 then ((predictions.getD 0 dummyPrediction).height)
    else if predictions.length ≤ idx then
      (predictions.getD (predictions.length - 1) dummyPrediction).height
    else
      let p1 := predictions.getD (idx - 1) dummyPrediction
      let p2 := predictions.getD idx dummyPrediction
      let ratio : ℚ := ((timestamp - p1.timestamp : Int) : ℚ) / ((p2.timestamp - p1.timestamp : Int) : ℚ)
      p1.height + (p2.height - p1.height) * ratio

/-- `interpolateExtremes` (service.go): clamp outside the series, otherwise
Hermite cubic between the bracketing extremes with secant tangents taken
from the outer neighbours when they exist (zero otherwise). -/
def interpolateExtremes (extremes : List TideExtreme) (timestamp : Int) : ℚ :=
  if extremes.length = 0 then 0
  else
    let idx := findNearestExtremeIndex extremes timestamp
    if idx = 0 then (extremes.getD 0 dummyExtreme).height
    else if extremes.length ≤ idx then
      (extremes.getD (extremes.length - 1) dummyExtreme).height
    else
      let e1 := extremes.getD (idx - 1) dummyExtreme
      let e2 := extremes.getD idx dummyExtreme
      let t : ℚ := ((timestamp - e1.timestamp : Int) : ℚ) / ((e2.timestamp - e1.timestamp : Int) : ℚ)
      let h00 := 2 * t ^ 3 - 3 * t ^ 2 + 1
      let h10 := t ^ 3 - 2 * t ^ 2 + t
      let h01 := -2 * t ^ 3 + 3 * t ^ 2
      let h11 := t ^ 3 - t ^ 2
      let m1 : ℚ := if 1 < idx then
          (e2.height - (extremes.getD (idx - 2) dummyExtreme).height) /
            ((e2.timestamp - (extremes.getD (idx - 2) dummyExtreme).timestamp : Int) : ℚ)
        else 0
      let m2 : ℚ := if idx < extremes.length - 1 then
          ((extremes.getD (idx + 1) dummyExtreme).height - e1.height) /
            (((extremes.getD (idx + 1) dummyExtreme).timestamp - e1.timestamp : Int) : ℚ)
        else 0
      h00 * e1.height + h10 * m1 * ((e2.timestamp - e1.timestamp : Int) : ℚ) +
        h01 * e2.height + h11 * m2 * ((e2.timestamp - e1.timestamp : Int) : ℚ)

/-! ### IEEE 754 binary64 model

The decoded heights are Go `float64` values and the interpolation
arithmetic runs at that precision.  A binary64 value is a rational of the
form `±m·2^e` with `m < 2^53`; each arithmetic step rounds its exact
rational result to the nearest such value, ties to even significand
(IEEE 754 round-to-nearest-even, the Go default).  The model covers the
finite normal range (no overflow, underflow or NaN arises at the
magnitudes any claim touches).

The exact rational intermediate steps are written with `Rat.divInt` over
cross-multiplied numerators and denominators rather than with `ℚ`'s
bundled arithmetic, so that the kernel can evaluate them on concrete
inputs; the `q…_eq` lemmas below prove each such step equal to the
corresponding exact `ℚ` operation. -/

/-- Exact rational addition in kernel-evaluable form. -/
def qadd (a b : ℚ) : ℚ :=
  Rat.divInt (a.num * (b.den : Int) + b.num * (a.den : Int))
    ((a.den : Int) * (b.den : Int))

/-- Exact rational subtraction in kernel-evaluable form. -/
def qsub (a b : ℚ) : ℚ :=
  Rat.divInt (a.num * (b.den : Int) - b.num * (a.den : Int))
    ((a.den : Int) * (b.den : Int))

/-- Exact rational multiplication in kernel-evaluable form. -/
def qmul (a b : ℚ) : ℚ :=
  Rat.divInt (a.num * b.num) ((a.den : Int) * (b.den : Int))

/-- Exact rational division in kernel-evaluable form. -/
def qdiv (a b : ℚ) : ℚ :=
  Rat.divInt (a.num * (b.den : Int)) (b.num * (a.den : Int))

/-- Exact rational negation in kernel-evaluable form. -/
def qneg (a : ℚ) : ℚ := Rat.divInt (-a.num) (a.den : Int)

/-- Exact rational comparison in kernel-evaluable form. -/
def qlt (a b : ℚ) : Bool := a.num * (b.den : Int) < b.num * (a.den : Int)

/-- `⌊log₂ n⌋` with an explicit iteration budget so the recursion is
structural; each pass halves `n`, so a budget of `n` never runs out
first. -/
def log2Fuel : Nat → Nat → Nat
  | 0, _ => 0
  | fuel + 1, n => if 2 ≤ n then log2Fuel fuel (n / 2) + 1 else 0

/-- `⌊log₂ n⌋` (0 for `n < 2`). -/
def natLog2 (n : Nat) : Nat := log2Fuel n n

/-- `2^e` in `ℚ` for a signed exponent. -/
def pow2Q (e : Int) : ℚ :=
  if 0 ≤ e then Rat.divInt ((2 ^ e.toNat : Nat) : Int) 1
  else Rat.divInt 1 ((2 ^ (-e).toNat : Nat) : Int)

/-- Floor of a rational: floor division of numerator by denominator. -/
def ratFloor (q : ℚ) : Int := q.num.fdiv (q.den : Int)

/-- Round a rational to the nearest integer, ties to even. -/
def roundHalfEven (x : ℚ) : Int :=
  let f := ratFloor x
  let r := qsub x (Rat.divInt f 1)
  if qlt r (Rat.divInt 1 2) then f
  else if qlt (Rat.divInt 1 2) r then f + 1
  else if f % 2 = 0 then f else f + 1

/-- The binary exponent of a positive rational: the `e` with
`2^e ≤ a < 2^(e+1)`, located from the bit lengths of numerator and
denominator and one comparison. -/
def floatExp (a : ℚ) : Int :=
  let g : Int := (natLog2 a.num.natAbs : Int) - (natLog2 a.den : Int)
  if qlt a (pow2Q g) then g - 1 else g

/-- Round a rational to the nearest IEEE 754 binary64 value
(round-to-nearest, ties to even): scale into `[2^52, 2^53)`, round the
significand, and scale back. -/
def roundFloat (q : ℚ) : ℚ :=
  if q.num = 0 then 0
  else
    let a := if q.num < 0 then qneg q else q
    let e := floatExp a - 52
    let m := roundHalfEven (qmul a (pow2Q (-e)))
    qmul (Rat.divInt (if q.num < 0 then -m else m) 1) (pow2Q e)

/-- `float64` addition: exact sum, then one rounding. -/
def fadd (a b : ℚ) : ℚ := roundFloat (qadd a b)

/-- `float64` subtraction. -/
def fsub (a b : ℚ) : ℚ := roundFloat (qsub a b)

/-- `float64` multiplication. -/
def fmul (a b : ℚ) : ℚ := roundFloat (qmul a b)

/-- `float64` division. -/
def fdiv (a b : ℚ) : ℚ := roundFloat (qdiv a b)

/-- The Go conversion `float64(n)` of an `int64`. -/
def intToFloat (n : Int) : ℚ := roundFloat (Rat.divInt n 1)

/-- `interpolatePredictions` at the program's native `float64` precision:
the control flow (`findNearestIndex`, the clamping branches) is identical
to the idealized `interpolatePredictions`; the interior branch computes
`float64(t−p1.t) / float64(p2.t−p1.t)` and
`p1.h + (p2.h − p1.h) · ratio` with IEEE 754 rounding after every
operation, exactly as the Go expression evaluates. -/
def interpolatePredictionsFloat (predictions : List TidePrediction)
    (timestamp : Int) : ℚ :=
  if predictions.length = 0 then 0
  else
    let idx := findNearestIndex predictions timestamp
    if idx = 0 then ((predictions.getD 0 dummyPrediction).height)
    else if predictions.length ≤ idx then
      (predictions.getD (predictions.length - 1) dummyPrediction).height
    else
      let p1 := predictions.getD (idx - 1) dummyPrediction
      let p2 := predictions.getD idx dummyPrediction
      let ratio := fdiv (intToFloat (timestamp - p1.timestamp))
        (intToFloat (p2.timestamp - p1.timestamp))
      fadd p1.height (fmul (fsub p2.height p1.height) ratio)

/-- `filterTimestamps` (service.go): keep predictions with
`start <= Timestamp <= end` (inclusive bounds). -/
def filterTimestamps (predictions : List TidePrediction) (start stop : Int) : List TidePrediction :=
  predictions.filter (fun p => start ≤ p.timestamp ∧ p.timestamp ≤ stop)

/-- `filterExtremes` (service.go): same inclusive filter over extremes. -/
def filterExtremes (extremes : List TideExtreme) (start stop : Int) : List TideExtreme :=
  extremes.filter (fun e => start ≤ e.timestamp ∧ e.timestamp ≤ stop)

end Flowebb

/-! ## Response assembly (`GetCurrentTideForStation`, service.go) -/

namespace Flowebb

/-- Insertion sort by a boolean `less` comparator.  `sort.Slice` in Go
guarantees only *some* ordering of the input sorted with respect to the
comparator; the concatenated per-day series the tide service sorts have
distinct timestamps, for which every correct sort yields the same list,
embedded here deterministically. -/
def insertSortedBy {α : Type} (less : α → α → Bool) (x : α) : List α → List α
  | [] => [x]
  | y :: ys => if less x y then x :: y :: ys else y :: insertSortedBy less x ys

/-- Sort a list with `insertSortedBy`. -/
def sortWith {α : Type} (less : α → α → Bool) : List α → List α
  | [] => []
  | x :: xs => insertSortedBy less x (sortWith less xs)

/-- The loop body of the synthesized 6-minute grid, with an explicit
iteration budget so that the recursion is structural: each pass consumes
one unit of budget while `t` advances 360000 ms, so a budget of
`(endTs + 1 - startTs).toNat` can never run out before `t` passes
`endTs` (the budget-exhausted branch is unreachable from
`synthesizePredictions`). -/
def synthesizeLoop (offset endTs : Int) (extremes : List TideExtreme) :
    Nat → Int → List TidePrediction
  | 0, _ => []
  | fuel + 1, t =>
    if t ≤ endTs then
      { timestamp := t, localTime := formatLocalTime offset t,
        height := interpolateExtremes extremes t } ::
        synthesizeLoop offset endTs extremes fuel (t + 360000)
    else []

/-- The synthesized 6-minute prediction grid of the extreme-interpolation
branch of `GetCurrentTideForStation` (service.go lines 140-147):
`for t := startTimestamp; t <= endTimestamp; t += 6 * 60 * 1000`. -/
def synthesizePredictions (offset startTs endTs : Int)
    (extremes : List TideExtreme) : List TidePrediction :=
  synthesizeLoop offset endTs extremes (endTs + 1 - startTs).toNat startTs

/-- The tide-type classification of `GetCurrentTideForStation` (service.go
lines 160-171): only when the filtered series has at least two points *and*
the bracketing index lies strictly inside the series is a type emitted;
RISING exactly when the current level exceeds the preceding height. -/
def classifyTideType (filteredPredictions : List TidePrediction) (nowLocal : Int)
    (currentLevel : ℚ) : Option TideType :=
  if 2 ≤ filteredPredictions.length then
    let idx := findNearestIndex filteredPredictions nowLocal
    if 0 < idx ∧ idx < filteredPredictions.length then
      if (filteredPredictions.getD (idx - 1) dummyPrediction).height < currentLevel then
        some .RISING
      else
        some .FALLING
    else none
  else none

/-- The fields of `models.ExtendedTideResponse` that the combine / filter /
classify pipeline computes (station metadata and echo fields omitted). -/
structure AssembledTide where
  waterLevel : ℚ
  tideType : Option TideType
  predictions : List TidePrediction
  extremes : List TideExtreme
deriving DecidableEq, Repr

/-- The pipeline of `GetCurrentTideForStation` after the per-day records are
obtained (service.go lines 109-192): concatenate the records' predictions
and extremes, sort by timestamp, synthesize a 6-minute grid from the
extremes when no dense series exists (in Go, `allPredictions == nil` holds
exactly when every record contributed zero predictions), interpolate the
current level, filter to the inclusive window, and classify the tide type. -/
def assembleTide (offset startTs endTs nowLocal : Int)
    (records : List TidePredictionRecord) : AssembledTide :=
  let allPredictions := sortWith (fun a b => decide (a.timestamp < b.timestamp))
    (records.foldl (fun acc r => acc ++ r.predictions) [])
  let allExtremes := sortWith (fun a b => decide (a.timestamp < b.timestamp))
    (records.foldl (fun acc r => acc ++ r.extremes) [])
  let branch : List TidePrediction × ℚ :=
    if allPredictions.isEmpty then
      (synthesizePredictions offset startTs endTs allExtremes,
        interpolateExtremes allExtremes nowLocal)
    else
      (allPredictions, interpolatePredictions allPredictions nowLocal)
  let filteredPredictions := filterTimestamps branch.1 startTs endTs
  let filteredExtremes := filterExtremes allExtremes startTs endTs
  { waterLevel := branch.2,
    tideType := classifyTideType filteredPredictions nowLocal branch.2,
    predictions := filteredPredictions,
    extremes := filteredExtremes }

/-! ## Date-range orchestration (`getPredictionsForDateRange`, service.go) -/

/-- One upstream `datagetter` call: the `interval` query parameter (`"6"`
for dense predictions, `"hilo"` for extremes) and the `begin_date` /
`end_date` days (day numbers standing for the `"20060102"` strings). -/
structure FetchCall where
  interval : String
  beginDate : Int
  endDate : Int
deriving DecidableEq, Repr

/-- Station-local calendar day of an epoch-ms timestamp:
`time.Unix(ts/1000, 0).In(location).Format("2006-01-02")` (service.go
re-bucketing); Go `/` truncates, the calendar day then rounds down. -/
def dayOfTimestamp (offset ts : Int) : Int :=
  (ts / 1000 + offset).fdiv 86400

/-- The inclusive day enumeration of `getPredictionsForDateRange`:
`for d := startDate; !d.After(endDate); d = d.AddDate(0, 0, 1)`. -/
def dateRange (startDate endDate : Int) : List Int :=
  (List.range (endDate - startDate + 1).toNat).map (fun i => startDate + i)

/-- The cache-probe loop: each date is looked up, hits are collected in
order, misses are collected in order (`cachedRecords` / `missingDates`).
A cache *error* leaves `record == nil` in Go, so the oracle's `none`
covers both a miss and a demoted read failure. -/
def partitionDates (cacheGet : Int → Option TidePredictionRecord) :
    List Int → List TidePredictionRecord × List Int
  | [] => ([], [])
  | d :: ds =>
    let rest := partitionDates cacheGet ds
    match cacheGet d with
    | some r => (r :: rest.1, rest.2)
    | none => (rest.1, d :: rest.2)

/-- The `minDate` fold of `getPredictionsForDateRange`: start from
`missingDates[0]`, replace on `date.Before(minDate)`. -/
def foldMinDate (m0 : Int) (rest : List Int) : Int :=
  rest.foldl (fun acc d => if d < acc then d else acc) m0

/-- The `maxDate` fold: start from `missingDates[0]`, replace on
`date.After(maxDate)`. -/
def foldMaxDate (m0 : Int) (rest : List Int) : Int :=
  rest.foldl (fun acc d => if acc < d then d else acc) m0

/-- `getPredictionsForDateRange` (service.go lines 355-481).  The two
upstream fetchers are parameters standing for `fetchNoaaPredictions` /
`fetchNoaaExtremes` (the decoded response, or the propagated
upstream/decode error); the returned `List FetchCall` records every
upstream call issued, in order — a call is issued before its result is
known, and a failed predictions fetch aborts before the extremes call.
The asynchronous `SavePredictionsBatch` write-back spawned on the miss
path issues no upstream fetch and does not affect the returned records,
so it does not appear in this pure function (the write path itself is
embedded above as `dynamoSavePredictionsBatch`). -/
def getPredictionsForDateRange
    (cacheGet : Int → Option TidePredictionRecord)
    (fetchPredictions : Int → Int → Except String (List TidePrediction))
    (fetchExtremes : Int → Int → Except String (List TideExtreme))
    (stationID stationType : String) (offset : Int)
    (startDate endDate : Int) :
    Except String (List TidePredictionRecord) × List FetchCall :=
  let dates := dateRange startDate endDate
  let parts := partitionDates cacheGet dates
  let cachedRecords := parts.1
  match parts.2 with
  | [] => (.ok cachedRecords, [])
  | m0 :: rest =>
    let missingDates := m0 :: rest
    let minDate := foldMinDate m0 rest
    let maxDate := foldMaxDate m0 rest
    match fetchPredictions minDate maxDate with
    | .error err => (.error err, [⟨"6", minDate, maxDate⟩])
    | .ok predictions =>
      match fetchExtremes minDate maxDate with
      | .error err =>
        (.error err, [⟨"6", minDate, maxDate⟩, ⟨"hilo", minDate, maxDate⟩])
      | .ok extremes =>
        let newRecords := missingDates.map (fun d =>
          let dateStr := formatDateISO d
          ({ stationID := stationID, date := dateStr, stationType := stationType,
             predictions := predictions.filter
               (fun p => formatDateISO (dayOfTimestamp offset p.timestamp) = dateStr),
             extremes := extremes.filter
               (fun e => formatDateISO (dayOfTimestamp offset e.timestamp) = dateStr),
             lastUpdated := 0, ttl := 0 } : TidePredictionRecord))
        let allRecords := sortWith (fun a b => decide (a.date < b.date))
          (cachedRecords ++ newRecords)
        (.ok allRecords, [⟨"6", minDate, maxDate⟩, ⟨"hilo", minDate, maxDate⟩])

end Flowebb

/-! ## Cache configuration (`internal/config/cache.go`) -/

namespace Flowebb

/-- `config.CacheConfig` (cache.go): the cache-related settings. -/
structure CacheConfig where
  lruSize : Int
  lruTTLMinutes : Int
  dynamoTTLDays : Int
  stationListTTLDays : Int
  batchSize : Int
  maxBatchRetries : Int
deriving DecidableEq, Repr

/-- `GetCacheConfig` with no environment overrides: the `default...`
constants of cache.go. -/
def defaultCacheConfig : CacheConfig :=
  { lruSize := 1000, lruTTLMinutes := 15, dynamoTTLDays := 2,
    stationListTTLDays := 2, batchSize := 25, maxBatchRetries := 3 }

/-- `CacheConfig.GetDynamoTTL().Seconds()`: the configured durable TTL in
seconds. -/
def CacheConfig.dynamoTTLSeconds (c : CacheConfig) : Int :=
  c.dynamoTTLDays * 24 * 60 * 60

/-- `CacheConfig.GetLRUTTL()` in milliseconds (the LRU works against
`time.Time`, embedded at millisecond resolution). -/
def CacheConfig.lruTTLMillis (c : CacheConfig) : Int :=
  c.lruTTLMinutes * 60 * 1000

/-! ## Durable prediction cache (`DynamoPredictionCache`,
the config-driven version carried in mock_cache_service.go) -/

/-- The hardcoded `cacheValidityDays` constant of the DynamoDB cache file. -/
def cacheValidityDays : Int := 7

/-- `DynamoPredictionCache.SavePredictions`: validate the record, stamp
`LastUpdated = now` (epoch seconds) and
`TTL = now + cacheValidityDays*24*60*60`, and return the item handed to
`PutItem`. -/
def dynamoSavePredictions (now : Int) (record : TidePredictionRecord) :
    Except String TidePredictionRecord := do
  match record.validate with
  | .error e => throw ("invalid prediction record: " ++ e)
  | .ok _ => pure ()
  pure { record with lastUpdated := now, ttl := now + cacheValidityDays * 24 * 60 * 60 }

/-- `record.Validate()` over a whole list with the batch error wrapper of
`SavePredictionsBatch`. -/
def validateRecords : List TidePredictionRecord → Except String Unit
  | [] => pure ()
  | r :: rs =>
    match r.validate with
    | .error e => throw ("invalid prediction record: " ++ e)
    | .ok _ => validateRecords rs

/-- The batch-slicing loop with an explicit iteration budget so the
recursion is structural: each chunk consumes at least one record, so a
budget of the list's length never runs out first. -/
def chunkLoop {α : Type} (batchSize : Int) : Nat → List α → List (List α)
  | _, [] => []
  | 0, _ :: _ => []
  | fuel + 1, x :: xs =>
    if batchSize ≤ 0 then []
    else (x :: xs).take batchSize.toNat ::
      chunkLoop batchSize fuel ((x :: xs).drop batchSize.toNat)

/-- The batch slicing `records[i:i+batchSize]` of `SavePredictionsBatch`.
For `batchSize ≤ 0` the Go loop never advances (it does not terminate);
the validated configurations under test all have a positive batch size,
and the embedding returns no chunks there. -/
def chunkRecords {α : Type} (batchSize : Int) (records : List α) :
    List (List α) :=
  chunkLoop batchSize records.length records

/-- Observable steps of the batch-write path: a `BatchWriteItem` attempt for
a chunk (with the stamped items it carries) and an exponential-backoff
sleep in milliseconds. -/
inductive BatchEvent where
  | attempt (chunkIndex attemptIndex : Nat) (items : List TidePredictionRecord)
  | sleep (ms : Int)
deriving DecidableEq, Repr

/-- The retry loop of `SavePredictionsBatch` for a single chunk:
`for retry := 0; retry < maxRetries; retry++` with
`time.Sleep(time.Duration(1<<retry) * 100 * time.Millisecond)` after each
failure; a success clears `lastErr` and breaks.  `write ci a` is the result
of the `BatchWriteItem` call for chunk `ci` on attempt `a` (`none` =
success).  Returns the final `lastErr` and the event trace. -/
def processAttempts (write : Nat → Nat → Option String) (ci : Nat)
    (items : List TidePredictionRecord) (lastErr : Option String) :
    Nat → Nat → Option String × List BatchEvent
  | _, 0 => (lastErr, [])
  | retry, remaining + 1 =>
    match write ci retry with
    | some e =>
      let rest := processAttempts write ci items (some e) (retry + 1) remaining
      (rest.1, .attempt ci retry items :: .sleep (2 ^ retry * 100) :: rest.2)
    | none => (none, [.attempt ci retry items])

/-- The chunk loop of `SavePredictionsBatch`: stamp each record of the
chunk (`LastUpdated = now`, `TTL = now + GetDynamoTTL().Seconds()`), run
the retry loop, and abort with the wrapped last error if the budget is
exhausted. -/
def processChunks (cfg : CacheConfig) (now : Int)
    (write : Nat → Nat → Option String) :
    Nat → List (List TidePredictionRecord) → Except String Unit × List BatchEvent
  | _, [] => (.ok (), [])
  | ci, c :: cs =>
    let items := c.map (fun r =>
      { r with lastUpdated := now, ttl := now + cfg.dynamoTTLSeconds })
    let res := processAttempts write ci items none 0 cfg.maxBatchRetries.toNat
    match res.1 with
    | some e =>
      (.error ("batch writing predictions after " ++ toString cfg.maxBatchRetries
        ++ " retries: " ++ e), res.2)
    | none =>
      let rest := processChunks cfg now write (ci + 1) cs
      (rest.1, res.2 ++ rest.2)

/-- `DynamoPredictionCache.SavePredictionsBatch` (config-driven version):
validate all records first, then process batches of `cfg.batchSize` with
the retry loop. -/
def dynamoSavePredictionsBatch (cfg : CacheConfig) (now : Int)
    (write : Nat → Nat → Option String)
    (records : List TidePredictionRecord) : Except String Unit × List BatchEvent :=
  match validateRecords records with
  | .error e => (.error e, [])
  | .ok _ => processChunks cfg now write 0 (chunkRecords cfg.batchSize records)

/-! ## In-process LRU tier (`LRUCacheService`, lru_cache.go) -/

/-- `LRUCacheEntry`: a cached day record with its absolute expiry instant
(epoch milliseconds). -/
structure LRUCacheEntry where
  data : TidePredictionRecord
  expiresAt : Int
deriving DecidableEq, Repr

/-- The state of `LRUCacheService`: the bounded LRU map (most recently used
first, as in hashicorp/golang-lru), its capacity, the entry TTL in
milliseconds, and the stats counters. -/
structure LRUCacheService where
  entries : List (String × LRUCacheEntry)
  capacity : Nat
  ttl : Int
  lruHits : Nat
  lruMisses : Nat
  dynamoHits : Nat
  dynamoMisses : Nat
deriving DecidableEq, Repr

/-- `getCacheKey`: `fmt.Sprintf("%s:%s", stationID, date)`. -/
def getCacheKey (stationID date : String) : String := stationID ++ ":" ++ date

/-- Lookup in the LRU map. -/
def lruFind (entries : List (String × LRUCacheEntry)) (key : String) :
    Option LRUCacheEntry :=
  (entries.find? (fun kv => kv.1 = key)).map (·.2)

/-- `lru.Remove` / the removal half of `lru.Add`. -/
def lruRemove (entries : List (String × LRUCacheEntry)) (key : String) :
    List (String × LRUCacheEntry) :=
  entries.filter (fun kv => ¬ kv.1 = key)

/-- `lru.Add`: insert or refresh the key at the most-recent position and
evict the least recently used entry past the capacity. -/
def lruAdd (capacity : Nat) (entries : List (String × LRUCacheEntry))
    (key : String) (e : LRUCacheEntry) : List (String × LRUCacheEntry) :=
  ((key, e) :: lruRemove entries key).take capacity

/-- Recency update of `lru.Get` on a hit: move the key to the front. -/
def lruTouch (entries : List (String × LRUCacheEntry)) (key : String) :
    List (String × LRUCacheEntry) :=
  match lruFind entries key with
  | some e => (key, e) :: lruRemove entries key
  | none => entries

/-- Go `time.Time.Truncate(time.Second)` on an epoch-ms instant: round down
to the whole second. -/
def truncateToSecond (ms : Int) : Int := ms.fdiv 1000 * 1000

/-- `LRUCacheService.SavePredictions` (lru_cache.go lines 263-282):
validate, add to the LRU with
`ExpiresAt = clock.Now().Truncate(time.Second).Add(ttl)`, then write
through to DynamoDB; `remotePut` stands for the result of that remote
write (`none` = success), which cannot undo the LRU insertion. -/
def lruSavePredictions (remotePut : Option String) (now : Int)
    (st : LRUCacheService) (record : TidePredictionRecord) :
    Except String Unit × LRUCacheService :=
  match record.validate with
  | .error e => (.error ("invalid prediction record: " ++ e), st)
  | .ok _ =>
    let key := getCacheKey record.stationID record.date
    let newEntry : LRUCacheEntry := ⟨record, truncateToSecond now + st.ttl⟩
    let st' := { st with entries := lruAdd st.capacity st.entries key newEntry }
    match remotePut with
    | some e => (.error ("saving predictions to DynamoDB: " ++ e), st')
    | none => (.ok (), st')

/-- `LRUCacheService.GetPredictions` (lru_cache.go lines 229-260): probe the
LRU (hit iff `ExpiresAt.After(now)`, removing an expired entry), fall
through to DynamoDB (`dynamoGet` stands for the decoded remote read), and
re-seed the LRU through `SavePredictions` on a remote hit. -/
def lruGetPredictions (dynamoGet : Option TidePredictionRecord)
    (remotePut : Option String) (now : Int) (st : LRUCacheService)
    (stationID dateStr : String) :
    Except String (Option TidePredictionRecord) × LRUCacheService :=
  let key := getCacheKey stationID dateStr
  let afterLru : LRUCacheService :=
    match lruFind st.entries key with
    | some e =>
      if now < e.expiresAt then st
      else { st with entries := lruRemove st.entries key }
    | none => st
  match lruFind st.entries key with
  | some e =>
    if now < e.expiresAt then
      (.ok (some e.data),
        { st with entries := lruTouch st.entries key, lruHits := st.lruHits + 1 })
    else
      lruFallThrough dynamoGet remotePut now
        { afterLru with lruMisses := afterLru.lruMisses + 1 }
  | none =>
    lruFallThrough dynamoGet remotePut now
      { afterLru with lruMisses := afterLru.lruMisses + 1 }
where
  /-- The DynamoDB fall-through of `GetPredictions` after an LRU miss. -/
  lruFallThrough (dynamoGet : Option TidePredictionRecord)
      (remotePut : Option String) (now : Int) (st : LRUCacheService) :
      Except String (Option TidePredictionRecord) × LRUCacheService :=
    match dynamoGet with
    | some record =>
      let st' := { st with dynamoHits := st.dynamoHits + 1 }
      match lruSavePredictions remotePut now st' record with
      | (.error e, st'') => (.error ("saving predictions to LRU cache: " ++ e), st'')
      | (.ok _, st'') => (.ok (some record), st'')
    | none => (.ok none, { st with dynamoMisses := st.dynamoMisses + 1 })

end Flowebb

/-! ## Station finder (`internal/station/noaa.go`) -/

namespace Flowebb

/-- `models.Station`, restricted to the fields the finder reads or writes
(identity, coordinates, type, timezone, and the per-query distance). -/
structure Station where
  id : String
  name : String
  latitude : ℚ
  longitude : ℚ
  timeZoneOffset : Int
  stationType : Option String
  distance : ℚ
deriving DecidableEq, Repr

/-- A station paired with its computed distance (the local
`stationDistance` struct of `FindNearestStations`). -/
structure StationDistance where
  station : Station
  distance : ℚ
deriving DecidableEq, Repr

/-- The effective limit of `FindNearestStations`: `limit <= 0` falls back
to 5, then the limit is capped by the catalog size. -/
def effLimit (limit : Int) (catalogSize : Nat) : Nat :=
  min (if limit ≤ 0 then 5 else limit.toNat) catalogSize

/-- `FindNearestStations` (src/internal/station/noaa.go lines 48-99) as a
relation between its input and its possible outputs.  `calcDist` stands for
`calculateDistance` (pure haversine on `float64`s, a fixed function of the
four coordinates; its numeric values never influence control flow here).
`sort.Slice` guarantees only that the slice ends up *in some order* sorted
with respect to the comparator `d[i].distance < d[j].distance` — it is
documented as not stable — so the output is any distance-sorted permutation
of the catalog, truncated to the effective limit, with the distance stamped
onto the returned copies. -/
def findNearestRel (calcDist : ℚ → ℚ → ℚ → ℚ → ℚ) (lat lon : ℚ) (limit : Int)
    (stations : List Station) (out : List Station) : Prop :=
  (-90 ≤ lat ∧ lat ≤ 90) ∧ (-180 ≤ lon ∧ lon ≤ 180) ∧
  ∃ sorted : List StationDistance,
    sorted.Perm (stations.map (fun s =>
      ⟨s, calcDist lat lon s.latitude s.longitude⟩)) ∧
    List.Chain' (fun a b => ¬ b.distance < a.distance) sorted ∧
    out = (sorted.take (effLimit limit stations.length)).map
      (fun sd => { sd.station with distance := sd.distance })

/-! ## Station catalog cache (`StationCache`)

Two variants of `StationCache.GetStations` exist in the repository:
`src/unnamed/part_012` copies the cached slice before returning it, while
`backend-go/internal/cache/stations.go` returns the internal slice itself.
Go slices alias a backing array, so the difference is observable: we embed
a small heap of slices (`StationHeap`), readers receive a slice reference,
and element assignment through a reference mutates the referenced array. -/

/-- The heap of live station slices; a slice value is an index into it. -/
structure StationHeap where
  arrays : List (List Station)
deriving DecidableEq, Repr

/-- Read the array behind a slice reference. -/
def heapGet (h : StationHeap) (ref : Nat) : List Station :=
  h.arrays.getD ref []

/-- Allocate a fresh array (`make` + `copy`), returning its reference. -/
def heapAlloc (h : StationHeap) (v : List Station) : StationHeap × Nat :=
  ({ arrays := h.arrays ++ [v] }, h.arrays.length)

/-- Element assignment `slice[i] = v` through a slice reference. -/
def heapWrite (h : StationHeap) (ref i : Nat) (v : Station) : StationHeap :=
  { arrays := h.arrays.set ref ((h.arrays.getD ref []).set i v) }

/-- The fields of `StationCache` the read path uses: the cached slice
reference, the last update instant, and the TTL. -/
structure StationCacheState where
  stationsRef : Nat
  lastUpdated : Int
  ttl : Int
deriving DecidableEq, Repr

/-- `StationCache.isExpired`: `time.Since(c.lastUpdated) > c.ttl`. -/
def stationCacheExpired (now : Int) (st : StationCacheState) : Bool :=
  st.ttl < now - st.lastUpdated

/-- `StationCache.GetStations` of backend-go/internal/cache/stations.go:
`return c.stations` — the internal slice reference itself. -/
def getStationsNoCopy (now : Int) (st : StationCacheState) (h : StationHeap) :
    Option Nat × StationHeap :=
  if stationCacheExpired now st then (none, h)
  else (some st.stationsRef, h)

/-- `StationCache.GetStations` of src/unnamed/part_012: allocate a copy of
the cached slice and return the copy's reference. -/
def getStationsCopy (now : Int) (st : StationCacheState) (h : StationHeap) :
    Option Nat × StationHeap :=
  if stationCacheExpired now st then (none, h)
  else
    let alloc := heapAlloc h (heapGet h st.stationsRef)
    (some alloc.2, alloc.1)

end Flowebb

/-! ## Concrete scenario data

Closed inputs used by the witness and counterexample theorems below. -/

namespace Flowebb

/-- A well-formed day record with no predictions or extremes (station
`TEST001`, day `2024-01-01`, reference type). -/
def validRecord : TidePredictionRecord :=
  { stationID := "TEST001", date := "2024-01-01", stationType := "R",
    predictions := [], extremes := [], lastUpdated := 0, ttl := 0 }

/-- The four extremes of the subordinate-station scenario (spec §8
scenario 6): 00:00 H 2.0, 06:00 L 0.5, 12:00 H 2.2, 18:00 L 0.4, laid on
the day starting at epoch instant 0 of a zero-offset station. -/
def subExtremes : List TideExtreme :=
  [⟨.HIGH, 0, "1970-01-01T00:00:00", 2⟩,
   ⟨.LOW, 21600000, "1970-01-01T06:00:00", 1/2⟩,
   ⟨.HIGH, 43200000, "1970-01-01T12:00:00", 11/5⟩,
   ⟨.LOW, 64800000, "1970-01-01T18:00:00", 2/5⟩]

/-- The subordinate station's single day record: no dense series, only the
four extremes. -/
def subRecord : TidePredictionRecord :=
  { stationID := "SUB001", date := "1970-01-01", stationType := "S",
    predictions := [], extremes := subExtremes, lastUpdated := 0, ttl := 0 }

/-- A reference-station record with exactly two dense predictions. -/
def twoPointRecord : TidePredictionRecord :=
  { stationID := "REF001", date := "1970-01-01", stationType := "R",
    predictions := [⟨0, "1970-01-01T00:00:00", 1⟩, ⟨360000, "1970-01-01T00:06:00", 2⟩],
    extremes := [], lastUpdated := 0, ttl := 0 }

/-- A two-point dense series with distinct timestamps (C4 witness). -/
def twoPointSeries : List TidePrediction :=
  [⟨0, "", 1⟩, ⟨10, "", 3⟩]

/-- A two-point series whose heights are the binary64 values of the
decoded decimals 3.1 and 0.1. -/
def floatSeries : List TidePrediction :=
  [⟨0, "", roundFloat (Rat.divInt 31 10)⟩,
   ⟨10, "", roundFloat (Rat.divInt 1 10)⟩]

/-- A cache oracle with day 1 cached and days 0 and 2 missing. -/
def cacheGetPartial : Int → Option TidePredictionRecord :=
  fun d => if d = 1 then some validRecord else none

/-- A cache oracle with every day cached. -/
def cacheGetFull : Int → Option TidePredictionRecord :=
  fun _ => some validRecord

/-- An upstream predictions fetcher returning an empty decoded series. -/
def fetchPredsEmpty : Int → Int → Except String (List TidePrediction) :=
  fun _ _ => .ok []

/-- An upstream extremes fetcher returning an empty decoded series. -/
def fetchExtsEmpty : Int → Int → Except String (List TideExtreme) :=
  fun _ _ => .ok []

/-- An upstream predictions fetcher whose call fails (upstream 5xx or
decode error). -/
def fetchPredsFailing : Int → Int → Except String (List TidePrediction) :=
  fun _ _ => .error "fetching predictions: upstream error"

/-- An empty LRU cache service with capacity 1000 and a one-minute TTL. -/
def emptyLRU : LRUCacheService :=
  { entries := [], capacity := 1000, ttl := 60000,
    lruHits := 0, lruMisses := 0, dynamoHits := 0, dynamoMisses := 0 }

/-- The LRU state after saving `validRecord` at epoch-ms 1500 (a put at a
sub-second instant). -/
def lruAfterPut : LRUCacheService :=
  (lruSavePredictions none 1500 emptyLRU validRecord).2

/-- A batch-write oracle whose every attempt fails. -/
def writeAlwaysFails : Nat → Nat → Option String :=
  fun _ _ => some "boom"

/-- A batch-write oracle that succeeds on the third attempt (index 2) of
every chunk. -/
def writeThirdTry : Nat → Nat → Option String :=
  fun _ a => if a = 2 then none else some "throttled"

/-- Two stations at identical coordinates whose IDs are in descending
order relative to the output under test. -/
def stationA : Station :=
  { id := "A", name := "Alpha", latitude := 0, longitude := 0,
    timeZoneOffset := 0, stationType := some "R", distance := 0 }

/-- The second equal-coordinates station. -/
def stationB : Station :=
  { id := "B", name := "Bravo", latitude := 0, longitude := 0,
    timeZoneOffset := 0, stationType := some "R", distance := 0 }

/-- A catalog heap holding one cached slice `[stationA]` at reference 0. -/
def heap0 : StationHeap := { arrays := [[stationA]] }

/-- A fresh, unexpired station cache pointing at reference 0. -/
def stationCache0 : StationCacheState :=
  { stationsRef := 0, lastUpdated := 0, ttl := 172800000 }

end Flowebb

/-! ## Supporting lemmas -/

namespace Flowebb

/-- In a strictly ascending series, every element's timestamp is bounded by
the last element's. -/
theorem timestamp_le_getLast (d : TidePrediction) :
    ∀ (l : List TidePrediction),
      List.Pairwise (fun a b => a.timestamp < b.timestamp) l →
      ∀ p ∈ l, p.timestamp ≤ (l.getD (l.length - 1) d).timestamp := by
  intro l
  induction l with
  | nil => intro _ p hp; exact absurd hp (List.not_mem_nil p)
  | cons x xs ih =>
    intro hsort p hp
    rcases List.pairwise_cons.mp hsort with ⟨hx, hxs⟩
    cases xs with
    | nil =>
      rw [List.mem_singleton.mp hp]
      simp
    | cons y ys =>
      have hlen : (x :: y :: ys).length - 1 = (y :: ys).length - 1 + 1 := by
        simp
      rw [hlen, List.getD_cons_succ]
      rcases List.mem_cons.mp hp with hp | hp
      · have hin : (y :: ys).length - 1 < (y :: ys).length := by simp
        have hmem : (y :: ys).getD ((y :: ys).length - 1) d ∈ y :: ys := by
          rw [List.getD_eq_getElem _ _ hin]
          exact List.getElem_mem hin
        rw [hp]
        exact le_of_lt (hx _ hmem)
      · exact ih hxs p hp

/-- `findNearestIndex` on a strictly ascending series returns the exact
index of a timestamp that occurs in it. -/
theorem findNearestIndex_exact (t : Int) :
    ∀ (l : List TidePrediction),
      List.Pairwise (fun a b => a.timestamp < b.timestamp) l →
      ∀ (k : Nat) (hk : k < l.length), (l.get ⟨k, hk⟩).timestamp = t →
      findNearestIndex l t = k := by
  intro l
  induction l with
  | nil => intro _ k hk; cases hk
  | cons x xs ih =>
    intro hsort k hk hts
    rcases List.pairwise_cons.mp hsort with ⟨hx, hxs⟩
    cases k with
    | zero =>
      simp only [List.get] at hts
      rw [findNearestIndex, List.findIdx_cons]
      have : (t ≤ x.timestamp) := le_of_eq hts.symm
      simp [this]
    | succ k =>
      have hk' : k < xs.length := by simpa using hk
      have hget : (xs.get ⟨k, hk'⟩).timestamp = t := hts
      have hmem : xs.get ⟨k, hk'⟩ ∈ xs := List.get_mem xs k hk'
      have hlt : x.timestamp < t := hget ▸ hx _ hmem
      have hfalse : ¬ (t ≤ x.timestamp) := not_le.mpr hlt
      have hxs' : findNearestIndex xs t = k := ih hxs k hk' hget
      rw [findNearestIndex, List.findIdx_cons]
      simp only [hfalse, decide_False, cond_false]
      rw [show List.findIdx (fun p => decide (t ≤ p.timestamp)) xs
        = findNearestIndex xs t from rfl, hxs']

/-- `findNearestIndex` is 0 when the target does not exceed the head's
timestamp. -/
theorem findNearestIndex_zero_of_le (t : Int) (x : TidePrediction)
    (xs : List TidePrediction) (h : t ≤ x.timestamp) :
    findNearestIndex (x :: xs) t = 0 := by
  rw [findNearestIndex, List.findIdx_cons]
  simp [h]

/-- `findNearestIndex` is the length when the target exceeds every
timestamp. -/
theorem findNearestIndex_length_of_gt (t : Int) (l : List TidePrediction)
    (h : ∀ p ∈ l, p.timestamp < t) :
    findNearestIndex l t = l.length := by
  rw [findNearestIndex, List.findIdx_eq_length]
  intro p hp
  simpa using not_le.mpr (h p hp)

end Flowebb

/-! ## Claim C10 -/

namespace Flowebb

/-- C10: for the empty series both `interpolatePredictions` and
`interpolateExtremes` return height 0, and a request that ends up with no
predictions and no extremes reports a current water level of 0 (neither
failure nor omission). -/
theorem C10_empty_series_zero_level :
    (∀ t : Int, interpolatePredictions [] t = 0) ∧
    (∀ t : Int, interpolateExtremes [] t = 0) ∧
    (∀ offset startTs endTs nowLocal : Int,
      (assembleTide offset startTs endTs nowLocal []).waterLevel = 0) := by
  refine ⟨fun t => rfl, fun t => rfl, fun offset startTs endTs nowLocal => rfl⟩

end Flowebb

/-! ## Claim C3 -/

namespace Flowebb

/-- C3 counterexample: at `now = 0` the durable-cache put stamps
`TTL = 604800` (7 days, the hardcoded `cacheValidityDays` constant) on a
valid record, which differs from `now +` the configured durable-cache TTL,
whose default is 2 days (172800 s). -/
theorem C3_ttl_is_hardcoded_seven_days :
    (dynamoSavePredictions 0 validRecord).toOption.map (fun r => r.ttl)
      = some 604800 ∧
    (604800 : Int) ≠ 0 + defaultCacheConfig.dynamoTTLSeconds := by
  constructor
  · rfl
  · decide

/-- C3 (amended): the durable-cache put validates the record first, failing
with the invalid-record error on violation, and otherwise stamps
`lastUpdated = now` and `TTL = now + 7 days` — the hardcoded
`cacheValidityDays = 7` constant, not the configured durable-cache TTL
(whose default is 2 days and which only the batch path uses). -/
theorem C3_put_validates_then_stamps (now : Int) (r : TidePredictionRecord) :
    (r.validate = .ok () →
      dynamoSavePredictions now r =
        .ok { r with lastUpdated := now,
                     ttl := now + cacheValidityDays * 24 * 60 * 60 }) ∧
    (∀ e, r.validate = .error e →
      dynamoSavePredictions now r = .error ("invalid prediction record: " ++ e)) := by
  constructor
  · intro h
    simp [dynamoSavePredictions, h, pure, Except.pure, bind, Except.bind]
  · intro e h
    simp [dynamoSavePredictions, h, pure, Except.pure, bind, Except.bind]

/-- Witness for C3 (amended) at `now = 5` on a concrete valid record. -/
theorem C3_put_validates_then_stamps_witness :
    dynamoSavePredictions 5 validRecord =
      .ok { validRecord with lastUpdated := 5,
                             ttl := 5 + cacheValidityDays * 24 * 60 * 60 } :=
  (C3_put_validates_then_stamps 5 validRecord).1 rfl

end Flowebb

/-! ## Claim C4 -/

namespace Flowebb

/-- The interpolation laws of the exact-real-arithmetic idealization: on a
non-empty series strictly ascending in timestamp, `interpolatePredictions`
returns the exact stored height at any stored timestamp (the bracketing
ratio is exactly 1) and clamps to the first (resp. last) height outside
the series.  The claim's exact-hit law holds only at this idealization:
at the program's `float64` precision it fails at interior indices (see
the C4 counterexample below). -/
theorem interpolatePredictions_ideal_laws (l : List TidePrediction)
    (hne : l ≠ [])
    (hsort : List.Pairwise (fun a b => a.timestamp < b.timestamp) l) :
    (∀ (k : Nat) (hk : k < l.length),
      interpolatePredictions l (l.get ⟨k, hk⟩).timestamp = (l.get ⟨k, hk⟩).height) ∧
    (∀ t : Int, t < (l.getD 0 dummyPrediction).timestamp →
      interpolatePredictions l t = (l.getD 0 dummyPrediction).height) ∧
    (∀ t : Int, (l.getD (l.length - 1) dummyPrediction).timestamp < t →
      interpolatePredictions l t = (l.getD (l.length - 1) dummyPrediction).height) := by
  have hlen0 : ¬ l.length = 0 := by
    intro h
    exact hne (List.length_eq_zero.mp h)
  refine ⟨?_, ?_, ?_⟩
  · intro k hk
    have hidx : findNearestIndex l (l.get ⟨k, hk⟩).timestamp = k :=
      findNearestIndex_exact _ l hsort k hk rfl
    by_cases hk0 : k = 0
    · subst hk0
      rw [interpolatePredictions]
      rw [if_neg hlen0, hidx, if_pos rfl, List.getD_eq_getElem _ _ hk]
      rfl
    · have hnotle : ¬ l.length ≤ k := not_le.mpr hk
      have hk1 : k - 1 < l.length := lt_of_le_of_lt (Nat.sub_le k 1) hk
      have hadj : (l.get ⟨k - 1, hk1⟩).timestamp < (l.get ⟨k, hk⟩).timestamp := by
        have := List.pairwise_iff_get.mp hsort ⟨k - 1, hk1⟩ ⟨k, hk⟩
        exact this (by
          simp only [Fin.mk_lt_mk]
          omega)
      rw [interpolatePredictions]
      rw [if_neg hlen0, hidx, if_neg hk0, if_neg hnotle]
      rw [List.getD_eq_getElem _ _ hk1, List.getD_eq_getElem _ _ hk]
      have hcast : ((l[k].timestamp : ℚ)) ≠ ((l[k - 1].timestamp : ℚ)) := by
        have : l[k - 1].timestamp < l[k].timestamp := hadj
        exact_mod_cast ne_of_gt this
      have hts : ((l[k].timestamp : ℚ)) - ((l[k - 1].timestamp : ℚ)) ≠ 0 :=
        sub_ne_zero.mpr hcast
      dsimp only
      simp only [List.get_eq_getElem] at hadj ⊢
      push_cast
      rw [div_self hts]
      ring
  · intro t ht
    cases l with
    | nil => exact absurd rfl hne
    | cons x xs =>
      have hidx : findNearestIndex (x :: xs) t = 0 := by
        apply findNearestIndex_zero_of_le
        rw [List.getD_cons_zero] at ht
        exact le_of_lt ht
      rw [interpolatePredictions, if_neg hlen0, hidx, if_pos rfl]
  · intro t ht
    have hall : ∀ p ∈ l, p.timestamp < t := by
      intro p hp
      exact lt_of_le_of_lt (timestamp_le_getLast dummyPrediction l hsort p hp) ht
    have hidx : findNearestIndex l t = l.length :=
      findNearestIndex_length_of_gt t l hall
    rw [interpolatePredictions, if_neg hlen0, hidx, if_neg hlen0, if_pos le_rfl]

/-- The ideal laws at the concrete two-point series: exact hit at the
second stored timestamp, clamping below the first and above the last. -/
theorem interpolatePredictions_ideal_laws_instance :
    interpolatePredictions twoPointSeries 10 = 3 ∧
    interpolatePredictions twoPointSeries (-5) = 1 ∧
    interpolatePredictions twoPointSeries 99 = 3 := by
  have h := interpolatePredictions_ideal_laws twoPointSeries (by decide)
    (by decide)
  exact ⟨h.1 1 (by decide), h.2.1 (-5) (by decide), h.2.2 99 (by decide)⟩

/-- A rational's numerator is the rational times its denominator. -/
theorem ratNum_eq (a : ℚ) : ((a.num : Int) : ℚ) = a * ((a.den : Nat) : ℚ) :=
  (div_eq_iff (by exact_mod_cast a.den_nz)).mp (Rat.num_div_den a)

/-- `qadd` is exact rational addition. -/
theorem qadd_eq (a b : ℚ) : qadd a b = a + b := by
  have ha : ((a.den : ℚ)) ≠ 0 := by exact_mod_cast a.den_nz
  have hb : ((b.den : ℚ)) ≠ 0 := by exact_mod_cast b.den_nz
  rw [qadd, Rat.divInt_eq_div]
  push_cast
  rw [div_eq_iff (mul_ne_zero ha hb), ratNum_eq a, ratNum_eq b]
  ring

/-- `qsub` is exact rational subtraction. -/
theorem qsub_eq (a b : ℚ) : qsub a b = a - b := by
  have ha : ((a.den : ℚ)) ≠ 0 := by exact_mod_cast a.den_nz
  have hb : ((b.den : ℚ)) ≠ 0 := by exact_mod_cast b.den_nz
  rw [qsub, Rat.divInt_eq_div]
  push_cast
  rw [div_eq_iff (mul_ne_zero ha hb), ratNum_eq a, ratNum_eq b]
  ring

/-- `qmul` is exact rational multiplication. -/
theorem qmul_eq (a b : ℚ) : qmul a b = a * b := by
  have ha : ((a.den : ℚ)) ≠ 0 := by exact_mod_cast a.den_nz
  have hb : ((b.den : ℚ)) ≠ 0 := by exact_mod_cast b.den_nz
  rw [qmul, Rat.divInt_eq_div]
  push_cast
  rw [div_eq_iff (mul_ne_zero ha hb), ratNum_eq a, ratNum_eq b]
  ring

/-- `qdiv` is exact rational division (the divisor nonzero). -/
theorem qdiv_eq (a b : ℚ) (hb : b ≠ 0) : qdiv a b = a / b := by
  have ha : ((a.den : ℚ)) ≠ 0 := by exact_mod_cast a.den_nz
  have hbn : ((b.num : ℚ)) ≠ 0 := by exact_mod_cast Rat.num_ne_zero.mpr hb
  rw [qdiv, Rat.divInt_eq_div]
  push_cast
  rw [div_eq_div_iff (mul_ne_zero hbn ha) hb, ratNum_eq a, ratNum_eq b]
  ring

/-- `qneg` is exact rational negation. -/
theorem qneg_eq (a : ℚ) : qneg a = -a := by
  have ha : ((a.den : ℚ)) ≠ 0 := by exact_mod_cast a.den_nz
  rw [qneg, Rat.divInt_eq_div]
  push_cast
  rw [div_eq_iff ha, ratNum_eq a]
  ring

/-- `qlt` is the exact rational order. -/
theorem qlt_iff (a b : ℚ) : qlt a b = true ↔ a < b := by
  have ha : (0 : ℚ) < ((a.den : ℚ)) := by exact_mod_cast a.den_pos
  have hb : (0 : ℚ) < ((b.den : ℚ)) := by exact_mod_cast b.den_pos
  rw [qlt, decide_eq_true_eq]
  have key : a < b ↔ ((a.num : ℚ)) * ((b.den : ℚ)) < ((b.num : ℚ)) * ((a.den : ℚ)) := by
    conv_lhs => rw [← Rat.num_div_den a, ← Rat.num_div_den b]
    rw [div_lt_div_iff₀ ha hb]
  rw [key]
  constructor
  · intro h
    exact_mod_cast h
  · intro h
    exact_mod_cast h

/-- C4 counterexample: with the heights of the decoded doubles 3.1 and 0.1
(a strictly ascending two-point series, exact hit on the second stored
timestamp) the program's float64 computation `p1.h + (p2.h − p1.h) · 1.0`
yields 0.10000000000000008881…, not the stored height
0.10000000000000000555…: "equals series[k].height exactly" fails at
interior indices in binary64 arithmetic. -/
theorem C4_interior_exact_hit_inexact :
    List.Pairwise (fun a b : TidePrediction => a.timestamp < b.timestamp)
      floatSeries ∧
    (floatSeries.getD 1 dummyPrediction).timestamp = 10 ∧
    interpolatePredictionsFloat floatSeries 10
      ≠ (floatSeries.getD 1 dummyPrediction).height := by
  refine ⟨by decide, rfl, by decide⟩

/-- C4 (amended): at the program's float64 precision, on every non-empty
series strictly ascending in timestamp: a target before the first
timestamp yields exactly the first stored height, a target after the last
yields exactly the last stored height (these paths hand back the stored
value verbatim — no extrapolation), and an exact hit on the first stored
timestamp returns its height exactly.  An exact hit on an interior stored
timestamp computes `p1.h + (p2.h − p1.h) · 1.0` in float64, which need
not equal the stored height (counterexample above); equality at every
stored timestamp holds only in the exact-arithmetic idealization
(`interpolatePredictions_ideal_laws`). -/
theorem C4_float64_interpolation_laws (l : List TidePrediction) (hne : l ≠ [])
    (hsort : List.Pairwise (fun a b => a.timestamp < b.timestamp) l) :
    (∀ hk : 0 < l.length,
      interpolatePredictionsFloat l (l.get ⟨0, hk⟩).timestamp
        = (l.get ⟨0, hk⟩).height) ∧
    (∀ t : Int, t < (l.getD 0 dummyPrediction).timestamp →
      interpolatePredictionsFloat l t = (l.getD 0 dummyPrediction).height) ∧
    (∀ t : Int, (l.getD (l.length - 1) dummyPrediction).timestamp < t →
      interpolatePredictionsFloat l t
        = (l.getD (l.length - 1) dummyPrediction).height) := by
  have hlen0 : ¬ l.length = 0 := fun h => hne (List.length_eq_zero.mp h)
  refine ⟨?_, ?_, ?_⟩
  · intro hk
    have hidx : findNearestIndex l (l.get ⟨0, hk⟩).timestamp = 0 :=
      findNearestIndex_exact _ l hsort 0 hk rfl
    rw [interpolatePredictionsFloat, if_neg hlen0, hidx, if_pos rfl,
      List.getD_eq_getElem _ _ hk]
    rfl
  · intro t ht
    cases l with
    | nil => exact absurd rfl hne
    | cons x xs =>
      have hidx : findNearestIndex (x :: xs) t = 0 := by
        apply findNearestIndex_zero_of_le
        rw [List.getD_cons_zero] at ht
        exact le_of_lt ht
      rw [interpolatePredictionsFloat, if_neg hlen0, hidx, if_pos rfl]
  · intro t ht
    have hall : ∀ p ∈ l, p.timestamp < t := fun p hp =>
      lt_of_le_of_lt (timestamp_le_getLast dummyPrediction l hsort p hp) ht
    have hidx : findNearestIndex l t = l.length :=
      findNearestIndex_length_of_gt t l hall
    rw [interpolatePredictionsFloat, if_neg hlen0, hidx, if_neg hlen0,
      if_pos le_rfl]

/-- Witness for C4 (amended) on the 3.1/0.1 series: exact hit at the first
stored timestamp, clamping below the first and above the last. -/
theorem C4_float64_interpolation_laws_witness :
    interpolatePredictionsFloat floatSeries
        (floatSeries.get ⟨0, by decide⟩).timestamp
      = (floatSeries.get ⟨0, by decide⟩).height ∧
    interpolatePredictionsFloat floatSeries (-5)
      = (floatSeries.getD 0 dummyPrediction).height ∧
    interpolatePredictionsFloat floatSeries 99
      = (floatSeries.getD 1 dummyPrediction).height := by
  have h := C4_float64_interpolation_laws floatSeries (by decide) (by decide)
  exact ⟨h.1 (by decide), h.2.1 (-5) (by decide), h.2.2 99 (by decide)⟩

end Flowebb

/-! ## Claim C5 -/

namespace Flowebb

/-- `findNearestIndex` is positive on a non-empty series exactly when the
head's timestamp lies strictly before the target. -/
theorem findNearestIndex_pos_iff (x : TidePrediction) (xs : List TidePrediction)
    (t : Int) : 0 < findNearestIndex (x :: xs) t ↔ x.timestamp < t := by
  rw [findNearestIndex, List.findIdx_cons]
  by_cases h : t ≤ x.timestamp
  · simp only [h, decide_True, cond_true]
    omega
  · simp only [h, decide_False, cond_false]
    omega

/-- On a strictly ascending series, `findNearestIndex` lands inside the
series exactly when the target does not exceed the last timestamp. -/
theorem findNearestIndex_lt_length_iff (l : List TidePrediction) (t : Int)
    (hne : l ≠ [])
    (hsort : List.Pairwise (fun a b => a.timestamp < b.timestamp) l) :
    findNearestIndex l t < l.length ↔
      t ≤ (l.getD (l.length - 1) dummyPrediction).timestamp := by
  constructor
  · intro h
    have hpred : (fun p => decide (t ≤ p.timestamp)) l[findNearestIndex l t] = true :=
      List.findIdx_getElem (w := h)
    have hle : t ≤ l[findNearestIndex l t].timestamp := by simpa using hpred
    exact le_trans hle
      (timestamp_le_getLast dummyPrediction l hsort _ (List.getElem_mem h))
  · intro h
    apply List.findIdx_lt_length_of_exists
    have hlt : l.length - 1 < l.length :=
      Nat.sub_lt (List.length_pos.mpr hne) one_pos
    refine ⟨l.getD (l.length - 1) dummyPrediction, ?_, by simpa using h⟩
    rw [List.getD_eq_getElem _ _ hlt]
    exact List.getElem_mem hlt

/-- C5 counterexample: an assembled response over a two-point filtered
series (timestamps 0 and 360000) with `now = 720000` past both points has
at least two filtered predictions and yet omits the tide-type field, so
"at least two points ⇒ field present" fails. -/
theorem C5_two_points_no_tide_type :
    2 ≤ (assembleTide 0 0 360000 720000 [twoPointRecord]).predictions.length ∧
    (assembleTide 0 0 360000 720000 [twoPointRecord]).tideType = none := by
  constructor
  · decide
  · rfl

/-- C5 (amended): the tide-type field is present iff the filtered series
has at least two points *and* `now` lies inside the series' span (strictly
after the first timestamp and at or before the last); when present it is
RISING exactly when the current height exceeds the height of the
prediction immediately preceding `now`, else FALLING.  With fewer than two
points — or with `now` outside the span, which the claim missed — the
field is omitted. -/
theorem C5_tide_type_classification (l : List TidePrediction)
    (nowLocal : Int) (currentLevel : ℚ)
    (hsort : List.Pairwise (fun a b => a.timestamp < b.timestamp) l) :
    ((classifyTideType l nowLocal currentLevel).isSome ↔
      2 ≤ l.length ∧ (l.getD 0 dummyPrediction).timestamp < nowLocal ∧
        nowLocal ≤ (l.getD (l.length - 1) dummyPrediction).timestamp) ∧
    (∀ ty, classifyTideType l nowLocal currentLevel = some ty →
      ty = if (l.getD (findNearestIndex l nowLocal - 1) dummyPrediction).height
          < currentLevel
        then TideType.RISING else TideType.FALLING) := by
  constructor
  · by_cases h2 : 2 ≤ l.length
    · cases l with
      | nil => simp at h2
      | cons x xs =>
        have hne : x :: xs ≠ [] := by simp
        have hkey : (0 < findNearestIndex (x :: xs) nowLocal ∧
            findNearestIndex (x :: xs) nowLocal < (x :: xs).length) ↔
            (((x :: xs).getD 0 dummyPrediction).timestamp < nowLocal ∧
              nowLocal ≤ ((x :: xs).getD ((x :: xs).length - 1) dummyPrediction).timestamp) := by
          rw [findNearestIndex_pos_iff, findNearestIndex_lt_length_iff _ _ hne hsort]
          simp
        by_cases hc : 0 < findNearestIndex (x :: xs) nowLocal ∧
            findNearestIndex (x :: xs) nowLocal < (x :: xs).length
        · simp only [classifyTideType, if_pos h2, if_pos hc,
            apply_ite Option.isSome, Option.isSome_some, ite_self]
          simp only [true_iff]
          exact ⟨h2, hkey.mp hc⟩
        · simp only [classifyTideType, if_pos h2, if_neg hc, Option.isSome_none,
            Bool.false_eq_true, false_iff]
          rintro ⟨-, hh1, hh2⟩
          exact hc (hkey.mpr ⟨hh1, hh2⟩)
    · simp only [classifyTideType, if_neg h2, Option.isSome_none,
        Bool.false_eq_true, false_iff]
      rintro ⟨hh, -, -⟩
      exact h2 hh
  · intro ty hty
    by_cases h2 : 2 ≤ l.length
    · by_cases hc : 0 < findNearestIndex l nowLocal ∧
          findNearestIndex l nowLocal < l.length
      · simp only [classifyTideType, if_pos h2, if_pos hc] at hty
        by_cases hh : (l.getD (findNearestIndex l nowLocal - 1) dummyPrediction).height
            < currentLevel
        · simp only [if_pos hh] at hty ⊢
          exact (Option.some_inj.mp hty).symm
        · simp only [if_neg hh] at hty ⊢
          exact (Option.some_inj.mp hty).symm
      · simp [classifyTideType, if_pos h2, if_neg hc] at hty
    · simp [classifyTideType, if_neg h2] at hty

/-- Witness for C5 (amended): the two-point series with `now` inside its
span classifies, and the classification is present. -/
theorem C5_tide_type_classification_witness :
    (classifyTideType twoPointRecord.predictions 180000 (3/2)).isSome :=
  (C5_tide_type_classification twoPointRecord.predictions 180000 (3/2)
    (by decide)).1.mpr ⟨by decide, by decide, by decide⟩

end Flowebb

/-! ## Claim C2 -/

namespace Flowebb

/-- Every entry of the synthesized 6-minute grid carries the height
obtained by Hermite interpolation of the extremes at its own timestamp. -/
theorem synthesizeLoop_height (offset endTs : Int) (exs : List TideExtreme) :
    ∀ (fuel : Nat) (t : Int), ∀ p ∈ synthesizeLoop offset endTs exs fuel t,
      p.height = interpolateExtremes exs p.timestamp := by
  intro fuel
  induction fuel with
  | zero => intro t p hp; exact absurd hp (List.not_mem_nil p)
  | succ n ih =>
    intro t p hp
    simp only [synthesizeLoop] at hp
    by_cases h : t ≤ endTs
    · rw [if_pos h] at hp
      rcases List.mem_cons.mp hp with hp | hp
      · subst hp
        rfl
      · exact ih (t + 360000) p hp
    · rw [if_neg h] at hp
      exact absurd hp (List.not_mem_nil p)

/-- The grid-height invariant transported to `synthesizePredictions`. -/
theorem synthesizePredictions_height (offset startTs endTs : Int)
    (exs : List TideExtreme) :
    ∀ p ∈ synthesizePredictions offset startTs endTs exs,
      p.height = interpolateExtremes exs p.timestamp :=
  synthesizeLoop_height offset endTs exs _ startTs

/-- C2 counterexample: the subordinate-station full-day scenario (four
extremes, no dense series, window `[0, 86400000]` ms on a zero-offset
station) synthesizes a grid of 241 entries, not the 240 the claim states:
the generation loop `for t := start; t <= end; t += 6min` includes both
endpoints. -/
theorem C2_grid_has_241_entries :
    (assembleTide 0 0 86400000 43200000 [subRecord]).predictions.length = 241 ∧
    (241 : Nat) ≠ 240 := by
  exact ⟨rfl, by decide⟩

/-- C2 (amended): in the subordinate-station full-day scenario the
response synthesizes predictions on the 6-minute grid numbering exactly
241 entries (both window endpoints included), each height equal to the
Hermite interpolation of the extremes at that instant, and the filtered
extremes are the four inputs unchanged. -/
theorem C2_subordinate_station_synthesis :
    (assembleTide 0 0 86400000 43200000 [subRecord]).predictions.length = 241 ∧
    (∀ p ∈ (assembleTide 0 0 86400000 43200000 [subRecord]).predictions,
      p.height = interpolateExtremes subExtremes p.timestamp) ∧
    (assembleTide 0 0 86400000 43200000 [subRecord]).extremes = subExtremes := by
  have hpreds : (assembleTide 0 0 86400000 43200000 [subRecord]).predictions
      = filterTimestamps (synthesizePredictions 0 0 86400000 subExtremes)
          0 86400000 := rfl
  refine ⟨rfl, ?_, rfl⟩
  intro p hp
  rw [hpreds] at hp
  have hp' : p ∈ synthesizePredictions 0 0 86400000 subExtremes :=
    List.mem_of_mem_filter hp
  exact synthesizePredictions_height 0 0 86400000 subExtremes p hp'

end Flowebb

/-! ## Claim C6 -/

namespace Flowebb

/-- C6 counterexample: put a valid record at epoch-ms 1500 into an LRU
with TTL 60000 ms; a get at 61200 — strictly before put-time + TTL =
61500, so the claim requires a hit — already misses and leaves no entry,
because `SavePredictions` truncates the put instant to the whole second
(`expiresAt` = 1000 + 60000 = 61000 ≤ 61200). -/
theorem C6_miss_strictly_before_put_plus_ttl :
    (61200 : Int) < 1500 + emptyLRU.ttl ∧
    (lruGetPredictions none none 61200 lruAfterPut "TEST001" "2024-01-01").1
      = .ok none ∧
    lruFind (lruGetPredictions none none 61200 lruAfterPut
        "TEST001" "2024-01-01").2.entries
      (getCacheKey "TEST001" "2024-01-01") = none := by
  refine ⟨by decide, rfl, rfl⟩

/-- C6 (amended): after a put at `putTime` with TTL `T`, the expiry
boundary is `trunc(putTime to the second) + T`: a get strictly before that
instant returns the record and counts an LRU hit; a get at or after it
(which includes every instant at or after `putTime + T`, as the claim
says, but starts up to a second earlier) returns a miss, removes the
entry, and counts an LRU miss. -/
theorem C6_lru_expiry_truncated (st0 : LRUCacheService)
    (r : TidePredictionRecord) (putTime getTime : Int)
    (hvalid : r.validate = .ok ())
    (hempty : st0.entries = [])
    (hcap : 1 ≤ st0.capacity) :
    ((getTime < truncateToSecond putTime + st0.ttl) →
      (lruGetPredictions none none getTime
          ((lruSavePredictions none putTime st0 r).2) r.stationID r.date).1
        = .ok (some r) ∧
      (lruGetPredictions none none getTime
          ((lruSavePredictions none putTime st0 r).2) r.stationID r.date).2.lruHits
        = st0.lruHits + 1) ∧
    ((truncateToSecond putTime + st0.ttl ≤ getTime) →
      (lruGetPredictions none none getTime
          ((lruSavePredictions none putTime st0 r).2) r.stationID r.date).1
        = .ok none ∧
      lruFind (lruGetPredictions none none getTime
          ((lruSavePredictions none putTime st0 r).2) r.stationID r.date).2.entries
        (getCacheKey r.stationID r.date) = none ∧
      (lruGetPredictions none none getTime
          ((lruSavePredictions none putTime st0 r).2) r.stationID r.date).2.lruMisses
        = st0.lruMisses + 1) := by
  obtain ⟨n, hn⟩ : ∃ n, st0.capacity = n + 1 :=
    ⟨st0.capacity - 1, by omega⟩
  have hsave : (lruSavePredictions none putTime st0 r).2
      = { st0 with entries := [(getCacheKey r.stationID r.date,
          ⟨r, truncateToSecond putTime + st0.ttl⟩)] } := by
    simp only [lruSavePredictions, hvalid]
    simp [lruAdd, lruRemove, hempty, hn]
  constructor
  · intro hlt
    rw [hsave]
    simp [lruGetPredictions, lruFind, lruTouch, lruRemove, hlt]
  · intro hge
    have hnlt : ¬ (getTime < truncateToSecond putTime + st0.ttl) := not_lt.mpr hge
    rw [hsave]
    simp [lruGetPredictions, lruGetPredictions.lruFallThrough, lruFind,
      lruTouch, lruRemove, hnlt]

/-- Witness for C6 (amended): the concrete put at 1500 with TTL 60000 hits
at 60999 and misses at 61000. -/
theorem C6_lru_expiry_truncated_witness :
    (lruGetPredictions none none 60999 lruAfterPut "TEST001" "2024-01-01").1
      = .ok (some validRecord) ∧
    (lruGetPredictions none none 61000 lruAfterPut "TEST001" "2024-01-01").1
      = .ok none := by
  refine ⟨?_, ?_⟩
  · exact ((C6_lru_expiry_truncated emptyLRU validRecord 1500 60999 rfl rfl
      (by decide)).1 (by decide)).1
  · exact ((C6_lru_expiry_truncated emptyLRU validRecord 1500 61000 rfl rfl
      (by decide)).2 (by decide)).1

end Flowebb

/-! ## Claim C1 -/

namespace Flowebb

/-- The miss side of the cache-probe loop is exactly the filter of the
dates whose probe returns nothing. -/
theorem partitionDates_missing (cacheGet : Int → Option TidePredictionRecord) :
    ∀ ds : List Int,
      (partitionDates cacheGet ds).2 = ds.filter (fun d => (cacheGet d).isNone) := by
  intro ds
  induction ds with
  | nil => rfl
  | cons d ds ih =>
    simp only [partitionDates]
    cases h : cacheGet d <;> simp [h, ih]

/-- The `minDate` fold computes a member of `m0 :: rest` that bounds every
member from below. -/
theorem foldMinDate_spec :
    ∀ (rest : List Int) (m0 : Int),
      foldMinDate m0 rest ∈ m0 :: rest ∧
        ∀ d ∈ m0 :: rest, foldMinDate m0 rest ≤ d := by
  intro rest
  induction rest with
  | nil =>
    intro m0
    refine ⟨List.mem_singleton.mpr rfl, ?_⟩
    intro d hd
    rw [List.mem_singleton.mp hd]
    exact le_rfl
  | cons x rest ih =>
    intro m0
    have hfold : foldMinDate m0 (x :: rest)
        = foldMinDate (if x < m0 then x else m0) rest := rfl
    rcases ih (if x < m0 then x else m0) with ⟨hmem, hbound⟩
    have hm1m0 : (if x < m0 then x else m0) ≤ m0 := by split <;> omega
    have hm1x : (if x < m0 then x else m0) ≤ x := by split <;> omega
    have hres : foldMinDate (if x < m0 then x else m0) rest
        ≤ (if x < m0 then x else m0) :=
      hbound _ (List.mem_cons_self _ _)
    constructor
    · rw [hfold]
      rcases List.mem_cons.mp hmem with h | h
      · rw [h]
        split <;> simp
      · exact List.mem_cons_of_mem _ (List.mem_cons_of_mem _ h)
    · intro d hd
      rw [hfold]
      rcases List.mem_cons.mp hd with h | h
      · rw [h]
        exact le_trans hres hm1m0
      · rcases List.mem_cons.mp h with h | h
        · rw [h]
          exact le_trans hres hm1x
        · exact hbound _ (List.mem_cons_of_mem _ h)

/-- The `maxDate` fold computes a member of `m0 :: rest` that bounds every
member from above. -/
theorem foldMaxDate_spec :
    ∀ (rest : List Int) (m0 : Int),
      foldMaxDate m0 rest ∈ m0 :: rest ∧
        ∀ d ∈ m0 :: rest, d ≤ foldMaxDate m0 rest := by
  intro rest
  induction rest with
  | nil =>
    intro m0
    refine ⟨List.mem_singleton.mpr rfl, ?_⟩
    intro d hd
    rw [List.mem_singleton.mp hd]
    exact le_rfl
  | cons x rest ih =>
    intro m0
    have hfold : foldMaxDate m0 (x :: rest)
        = foldMaxDate (if m0 < x then x else m0) rest := rfl
    rcases ih (if m0 < x then x else m0) with ⟨hmem, hbound⟩
    have hm1m0 : m0 ≤ (if m0 < x then x else m0) := by split <;> omega
    have hm1x : x ≤ (if m0 < x then x else m0) := by split <;> omega
    have hres : (if m0 < x then x else m0)
        ≤ foldMaxDate (if m0 < x then x else m0) rest :=
      hbound _ (List.mem_cons_self _ _)
    constructor
    · rw [hfold]
      rcases List.mem_cons.mp hmem with h | h
      · rw [h]
        split <;> simp
      · exact List.mem_cons_of_mem _ (List.mem_cons_of_mem _ h)
    · intro d hd
      rw [hfold]
      rcases List.mem_cons.mp hd with h | h
      · rw [h]
        exact le_trans hm1m0 hres
      · rcases List.mem_cons.mp h with h | h
        · rw [h]
          exact le_trans hm1x hres
        · exact hbound _ (List.mem_cons_of_mem _ h)

/-- C1 counterexample: with days 0 and 2 missing from the cache and the
predictions fetch failing (upstream error), the orchestrator issues only
ONE upstream call — the `interval=6` predictions call — before
propagating the error, so "issues exactly two upstream fetches" fails on
an in-scope request with a missing day. -/
theorem C1_failed_fetch_single_call :
    (dateRange 0 2).filter (fun d => (cacheGetPartial d).isNone) ≠ [] ∧
    (getPredictionsForDateRange cacheGetPartial fetchPredsFailing
      fetchExtsEmpty "TEST001" "R" 0 0 2).2 = [⟨"6", 0, 2⟩] ∧
    ([(⟨"6", 0, 2⟩ : FetchCall)] : List FetchCall).length ≠ 2 := by
  refine ⟨by decide, rfl, by decide⟩

/-- C1 (amended): over the enumerated station-local day range, if every
day probe hits a cache tier the orchestrator issues zero upstream
fetches.  If at least one day is missing: when both upstream calls
succeed it issues exactly two fetches — one 6-minute-prediction call,
one HIGH/LOW extremes call — both covering the single span
`[minMissing, maxMissing]` of the missing days; when the predictions
call fails, only that single call is issued and the error propagates
before the extremes call — at most two fetches in every case. -/
theorem C1_coalesced_fetch_minimality
    (cacheGet : Int → Option TidePredictionRecord)
    (fetchP : Int → Int → Except String (List TidePrediction))
    (fetchE : Int → Int → Except String (List TideExtreme))
    (sid stype : String) (offset s e : Int) :
    ((∀ d ∈ dateRange s e, (cacheGet d).isSome) →
      (getPredictionsForDateRange cacheGet fetchP fetchE sid stype offset s e).2
        = []) ∧
    (∀ m M : Int,
      m ∈ (dateRange s e).filter (fun d => (cacheGet d).isNone) →
      M ∈ (dateRange s e).filter (fun d => (cacheGet d).isNone) →
      (∀ d ∈ (dateRange s e).filter (fun d => (cacheGet d).isNone),
        m ≤ d ∧ d ≤ M) →
      (∃ ps, fetchP m M = .ok ps) →
      (∃ es, fetchE m M = .ok es) →
      (getPredictionsForDateRange cacheGet fetchP fetchE sid stype offset s e).2
        = [⟨"6", m, M⟩, ⟨"hilo", m, M⟩]) ∧
    (∀ m M : Int,
      m ∈ (dateRange s e).filter (fun d => (cacheGet d).isNone) →
      M ∈ (dateRange s e).filter (fun d => (cacheGet d).isNone) →
      (∀ d ∈ (dateRange s e).filter (fun d => (cacheGet d).isNone),
        m ≤ d ∧ d ≤ M) →
      ∀ err, fetchP m M = .error err →
      getPredictionsForDateRange cacheGet fetchP fetchE sid stype offset s e
        = (.error err, [⟨"6", m, M⟩])) := by
  refine ⟨?_, ?_, ?_⟩
  · intro hall
    have hgit : (partitionDates cacheGet (dateRange s e)).2 = [] := by
      rw [partitionDates_missing]
      rw [List.filter_eq_nil_iff]
      intro d hd
      simp [Option.isNone_iff_eq_none]
      exact Option.isSome_iff_ne_none.mp (hall d hd)
    simp only [getPredictionsForDateRange]
    rw [hgit]
  · intro m M hm hM hbound hfp hfe
    have hmiss := partitionDates_missing cacheGet (dateRange s e)
    rcases hcase : (partitionDates cacheGet (dateRange s e)).2 with _ | ⟨m0, rest⟩
    · rw [hcase] at hmiss
      rw [← hmiss] at hm
      exact absurd hm (List.not_mem_nil m)
    · rw [hcase] at hmiss
      have hmin := foldMinDate_spec rest m0
      have hmax := foldMaxDate_spec rest m0
      have hminm : foldMinDate m0 rest = m := by
        apply le_antisymm
        · exact hmin.2 m (by rw [hmiss]; exact hm)
        · exact (hbound _ (by rw [← hmiss]; exact hmin.1)).1
      have hmaxM : foldMaxDate m0 rest = M := by
        apply le_antisymm
        · exact (hbound _ (by rw [← hmiss]; exact hmax.1)).2
        · exact hmax.2 M (by rw [hmiss]; exact hM)
      obtain ⟨ps, hps⟩ := hfp
      obtain ⟨es, hes⟩ := hfe
      simp only [getPredictionsForDateRange]
      rw [hcase]
      simp only [hminm, hmaxM, hps, hes]
  · intro m M hm hM hbound err hferr
    have hmiss := partitionDates_missing cacheGet (dateRange s e)
    rcases hcase : (partitionDates cacheGet (dateRange s e)).2 with _ | ⟨m0, rest⟩
    · rw [hcase] at hmiss
      rw [← hmiss] at hm
      exact absurd hm (List.not_mem_nil m)
    · rw [hcase] at hmiss
      have hmin := foldMinDate_spec rest m0
      have hmax := foldMaxDate_spec rest m0
      have hminm : foldMinDate m0 rest = m := by
        apply le_antisymm
        · exact hmin.2 m (by rw [hmiss]; exact hm)
        · exact (hbound _ (by rw [← hmiss]; exact hmin.1)).1
      have hmaxM : foldMaxDate m0 rest = M := by
        apply le_antisymm
        · exact (hbound _ (by rw [← hmiss]; exact hmax.1)).2
        · exact hmax.2 M (by rw [hmiss]; exact hM)
      simp only [getPredictionsForDateRange]
      rw [hcase]
      simp only [hminm, hmaxM, hferr]

/-- Witness for C1 (amended): three enumerated days; with every day
cached no fetch is issued; with days 0 and 2 missing and both calls
succeeding exactly the two coalesced calls over `[0, 2]` are issued; and
with the predictions call failing only that single call is issued. -/
theorem C1_coalesced_fetch_minimality_witness :
    (getPredictionsForDateRange cacheGetFull fetchPredsEmpty fetchExtsEmpty
      "TEST001" "R" 0 0 2).2 = [] ∧
    (getPredictionsForDateRange cacheGetPartial fetchPredsEmpty fetchExtsEmpty
      "TEST001" "R" 0 0 2).2 = [⟨"6", 0, 2⟩, ⟨"hilo", 0, 2⟩] ∧
    getPredictionsForDateRange cacheGetPartial fetchPredsFailing fetchExtsEmpty
      "TEST001" "R" 0 0 2
      = (.error "fetching predictions: upstream error", [⟨"6", 0, 2⟩]) := by
  refine ⟨?_, ?_, ?_⟩
  · exact (C1_coalesced_fetch_minimality cacheGetFull fetchPredsEmpty
      fetchExtsEmpty "TEST001" "R" 0 0 2).1 (by decide)
  · exact (C1_coalesced_fetch_minimality cacheGetPartial fetchPredsEmpty
      fetchExtsEmpty "TEST001" "R" 0 0 2).2.1 0 2 (by decide) (by decide)
      (by decide) ⟨[], rfl⟩ ⟨[], rfl⟩
  · exact (C1_coalesced_fetch_minimality cacheGetPartial fetchPredsFailing
      fetchExtsEmpty "TEST001" "R" 0 0 2).2.2 0 2 (by decide) (by decide)
      (by decide) _ rfl

end Flowebb

/-! ## Claim C7 -/

namespace Flowebb

/-- Concatenating the batch chunks restores the record list. -/
theorem chunkLoop_join {α : Type} (bs : Int) (hbs : 0 < bs) :
    ∀ (fuel : Nat) (l : List α), l.length ≤ fuel →
      (chunkLoop bs fuel l).flatten = l := by
  intro fuel
  induction fuel with
  | zero =>
    intro l hl
    have : l = [] := List.length_eq_zero.mp (Nat.le_zero.mp hl)
    subst this
    rfl
  | succ n ih =>
    intro l hl
    cases l with
    | nil => rfl
    | cons x xs =>
      have hnb : ¬ bs ≤ 0 := not_le.mpr hbs
      simp only [chunkLoop, if_neg hnb, List.flatten_cons]
      rw [ih]
      · exact List.take_append_drop _ _
      · simp only [List.length_drop]
        have h1 : 1 ≤ bs.toNat := by omega
        simp only [List.length_cons] at hl ⊢
        omega

/-- Every batch chunk is non-empty and no larger than the batch size. -/
theorem chunkLoop_sizes {α : Type} (bs : Int) (hbs : 0 < bs) :
    ∀ (fuel : Nat) (l : List α), l.length ≤ fuel →
      ∀ c ∈ chunkLoop bs fuel l, c ≠ [] ∧ c.length ≤ bs.toNat := by
  intro fuel
  induction fuel with
  | zero =>
    intro l hl c hc
    have : l = [] := List.length_eq_zero.mp (Nat.le_zero.mp hl)
    subst this
    exact absurd hc (List.not_mem_nil c)
  | succ n ih =>
    intro l hl c hc
    cases l with
    | nil => exact absurd hc (List.not_mem_nil c)
    | cons x xs =>
      have hnb : ¬ bs ≤ 0 := not_le.mpr hbs
      have h1 : 1 ≤ bs.toNat := by omega
      simp only [chunkLoop, if_neg hnb] at hc
      rcases List.mem_cons.mp hc with hc | hc
      · subst hc
        constructor
        · have : ((x :: xs).take bs.toNat).length = min bs.toNat (x :: xs).length := by
            simp
          intro hnil
          rw [hnil] at this
          simp at this
          omega
        · simp
      · apply ih _ _ _ hc
        simp only [List.length_drop]
        simp only [List.length_cons] at hl ⊢
        omega

/-- The retry loop reports no error as soon as some in-budget attempt
succeeds. -/
theorem processAttempts_ok (write : Nat → Nat → Option String) (ci : Nat)
    (items : List TidePredictionRecord) :
    ∀ (remaining retry : Nat) (lastErr : Option String),
      (∃ a, retry ≤ a ∧ a < retry + remaining ∧ write ci a = none) →
      (processAttempts write ci items lastErr retry remaining).1 = none := by
  intro remaining
  induction remaining with
  | zero =>
    rintro retry lastErr ⟨a, h1, h2, -⟩
    omega
  | succ n ih =>
    rintro retry lastErr ⟨a, h1, h2, h3⟩
    cases hw : write ci retry with
    | none => simp [processAttempts, hw]
    | some err =>
      simp only [processAttempts, hw]
      apply ih
      refine ⟨a, ?_, by omega, h3⟩
      rcases Nat.lt_or_ge retry a with h | h
      · omega
      · exfalso
        have : a = retry := by omega
        rw [this, hw] at h3
        cases h3

/-- The retry loop that fails on every in-budget attempt performs exactly
`remaining` attempts with the exponential backoff after each and reports
the error of the final attempt. -/
theorem processAttempts_exhaust (write : Nat → Nat → Option String) (ci : Nat)
    (items : List TidePredictionRecord) :
    ∀ (remaining retry : Nat) (lastErr : Option String) (e : String),
      (∀ a, retry ≤ a → a < retry + remaining → write ci a ≠ none) →
      0 < remaining →
      write ci (retry + remaining - 1) = some e →
      processAttempts write ci items lastErr retry remaining
        = (some e,
          (List.range' retry remaining).flatMap
            (fun a => [.attempt ci a items, .sleep (2 ^ a * 100)])) := by
  intro remaining
  induction remaining with
  | zero =>
    intro retry lastErr e _ h0
    exact absurd h0 (lt_irrefl 0)
  | succ n ih =>
    intro retry lastErr e hall hpos hlast
    cases hw : write ci retry with
    | none => exact absurd hw (hall retry le_rfl (by omega))
    | some e' =>
      by_cases hn : n = 0
      · subst hn
        have he : e' = e := by
          have : retry + 1 - 1 = retry := by omega
          rw [this, hw] at hlast
          exact (Option.some_inj.mp hlast)
        subst he
        simp [processAttempts, hw, List.range']
      · have hn' : 0 < n := Nat.pos_of_ne_zero hn
        have hall' : ∀ a, retry + 1 ≤ a → a < retry + 1 + n → write ci a ≠ none := by
          intro a ha1 ha2
          exact hall a (by omega) (by omega)
        have hlast' : write ci (retry + 1 + n - 1) = some e := by
          have : retry + 1 + n - 1 = retry + (n + 1) - 1 := by omega
          rw [this]
          exact hlast
        simp only [processAttempts, hw]
        rw [ih (retry + 1) (some e') e hall' hn' hlast']
        rw [List.range'_succ]
        simp

/-- Chunks whose write succeeds within the retry budget contribute no
error: the whole chunk loop returns ok. -/
theorem processChunks_all_ok (cfg : CacheConfig) (now : Int)
    (write : Nat → Nat → Option String) :
    ∀ (cs : List (List TidePredictionRecord)) (start : Nat),
      (∀ i, i < cs.length →
        ∃ a, a < cfg.maxBatchRetries.toNat ∧ write (start + i) a = none) →
      (processChunks cfg now write start cs).1 = .ok () := by
  intro cs
  induction cs with
  | nil => intro start _; rfl
  | cons c cs ih =>
    intro start h
    obtain ⟨a, ha, hw⟩ := h 0 (by simp)
    have h1 : (processAttempts write start
        (c.map (fun r =>
          { r with lastUpdated := now, ttl := now + cfg.dynamoTTLSeconds }))
        none 0 cfg.maxBatchRetries.toNat).1 = none := by
      apply processAttempts_ok
      refine ⟨a, Nat.zero_le a, by omega, ?_⟩
      simpa using hw
    simp only [processChunks]
    rw [h1]
    refine ih (start + 1) ?_
    intro i hi
    obtain ⟨b, hb, hwb⟩ := h (i + 1) (by simpa using Nat.succ_lt_succ hi)
    refine ⟨b, hb, ?_⟩
    have harith : start + (i + 1) = start + 1 + i := by omega
    rw [harith] at hwb
    exact hwb

/-- C7: the batch write validates all records first (failing before any
write attempt), splits valid records into chunks of the configured batch
size (default 25), retries each failing chunk with exponential backoff of
100 ms × 2^attempt up to the configured max-retries (default 3), fails
after exhausting the budget with an error reporting the last underlying
error, and a chunk that succeeds within the budget contributes no error. -/
theorem C7_batch_write_retry
    (cfg : CacheConfig) (now : Int) (write : Nat → Nat → Option String)
    (records : List TidePredictionRecord) :
    (∀ err, validateRecords records = .error err →
      dynamoSavePredictionsBatch cfg now write records = (.error err, [])) ∧
    (defaultCacheConfig.batchSize = 25 ∧ defaultCacheConfig.maxBatchRetries = 3) ∧
    (0 < cfg.batchSize →
      (chunkRecords cfg.batchSize records).flatten = records ∧
      ∀ c ∈ chunkRecords cfg.batchSize records,
        c ≠ [] ∧ c.length ≤ cfg.batchSize.toNat) ∧
    (validateRecords records = .ok () →
      (∀ i, i < (chunkRecords cfg.batchSize records).length →
        ∃ a, a < cfg.maxBatchRetries.toNat ∧ write i a = none) →
      (dynamoSavePredictionsBatch cfg now write records).1 = .ok ()) ∧
    (∀ (c : List TidePredictionRecord) (cs : List (List TidePredictionRecord))
        (e : String),
      validateRecords records = .ok () →
      chunkRecords cfg.batchSize records = c :: cs →
      (∀ a, a < cfg.maxBatchRetries.toNat → write 0 a ≠ none) →
      0 < cfg.maxBatchRetries.toNat →
      write 0 (cfg.maxBatchRetries.toNat - 1) = some e →
      dynamoSavePredictionsBatch cfg now write records
        = (.error ("batch writing predictions after "
            ++ toString cfg.maxBatchRetries ++ " retries: " ++ e),
          (List.range' 0 cfg.maxBatchRetries.toNat).flatMap
            (fun a => [.attempt 0 a (c.map (fun r =>
                { r with lastUpdated := now,
                         ttl := now + cfg.dynamoTTLSeconds })),
              .sleep (2 ^ a * 100)]))) := by
  refine ⟨?_, ⟨rfl, rfl⟩, ?_, ?_, ?_⟩
  · intro err h
    simp [dynamoSavePredictionsBatch, h]
  · intro hbs
    exact ⟨chunkLoop_join cfg.batchSize hbs records.length records le_rfl,
      chunkLoop_sizes cfg.batchSize hbs records.length records le_rfl⟩
  · intro hval hsucc
    simp only [dynamoSavePredictionsBatch, hval]
    apply processChunks_all_ok
    intro i hi
    obtain ⟨a, ha, hw⟩ := hsucc i hi
    exact ⟨a, ha, by simpa using hw⟩
  · intro c cs e hval hchunks hall hpos hlast
    simp only [dynamoSavePredictionsBatch, hval, hchunks]
    simp only [processChunks]
    rw [processAttempts_exhaust write 0 _ cfg.maxBatchRetries.toNat 0 none e
      (by simpa using hall) hpos (by simpa using hlast)]

/-- Witness for C7: with the default configuration and one valid record,
a write that succeeds on its third attempt yields ok, while a write that
always fails yields the wrapped last error after three attempts with
backoffs 100, 200, 400 ms. -/
theorem C7_batch_write_retry_witness :
    (dynamoSavePredictionsBatch defaultCacheConfig 0 writeThirdTry
      [validRecord]).1 = .ok () ∧
    dynamoSavePredictionsBatch defaultCacheConfig 0 writeAlwaysFails
        [validRecord]
      = (.error "batch writing predictions after 3 retries: boom",
        [.attempt 0 0 [{ validRecord with lastUpdated := 0, ttl := 172800 }],
         .sleep 100,
         .attempt 0 1 [{ validRecord with lastUpdated := 0, ttl := 172800 }],
         .sleep 200,
         .attempt 0 2 [{ validRecord with lastUpdated := 0, ttl := 172800 }],
         .sleep 400]) := by
  constructor
  · apply (C7_batch_write_retry defaultCacheConfig 0 writeThirdTry
      [validRecord]).2.2.2.1 rfl
    intro i hi
    have h1 : (chunkRecords defaultCacheConfig.batchSize [validRecord]).length = 1 := rfl
    rw [h1] at hi
    have h0 : i = 0 := by omega
    subst h0
    exact ⟨2, by decide, rfl⟩
  · have h := (C7_batch_write_retry defaultCacheConfig 0 writeAlwaysFails
      [validRecord]).2.2.2.2 [validRecord] [] "boom" rfl rfl
      (by intro a _ h; cases h) (by decide) rfl
    rw [h]
    rfl

end Flowebb

/-! ## Claim C8 -/

namespace Flowebb

/-- A valid `FindNearestStations` outcome that lists two equal-distance
stations in ID-descending order: `sort.Slice` is not stable and sorts only
by distance, so this ordering satisfies everything the code guarantees. -/
theorem findNearestRel_tie_descending :
    findNearestRel (fun _ _ _ _ => 0) 0 0 2 [stationA, stationB]
      [{ stationB with distance := 0 }, { stationA with distance := 0 }] := by
  refine ⟨⟨by norm_num, by norm_num⟩, ⟨by norm_num, by norm_num⟩, ?_⟩
  refine ⟨[⟨stationB, 0⟩, ⟨stationA, 0⟩], ?_, ?_, rfl⟩
  · have hmap : ([stationA, stationB].map (fun s =>
        (⟨s, (fun _ _ _ _ => (0 : ℚ)) 0 0 s.latitude s.longitude⟩ : StationDistance)))
        = [⟨stationA, 0⟩, ⟨stationB, 0⟩] := rfl
    rw [hmap]
    exact List.Perm.swap _ _ _
  · simp

/-- C8 counterexample: for a query over two stations at identical
coordinates (hence equal distances for any distance function), the output
that lists station "B" before station "A" satisfies the finder's contract,
so the returned list does not order equal-distance stations by station ID
ascending and the result order is not deterministic. -/
theorem C8_equal_distance_not_id_ordered :
    findNearestRel (fun _ _ _ _ => 0) 0 0 2 [stationA, stationB]
      [{ stationB with distance := 0 }, { stationA with distance := 0 }] ∧
    ({ stationB with distance := 0 } : Station).distance
      = ({ stationA with distance := 0 } : Station).distance ∧
    ¬ (({ stationB with distance := 0 } : Station).id
      ≤ ({ stationA with distance := 0 } : Station).id) := by
  refine ⟨findNearestRel_tie_descending, rfl, ?_⟩
  show ¬ ("B" : String) ≤ "A"
  rw [String.le_iff_toList_le]
  decide

/-- C8 (amended): every list the finder may return is sorted by distance
ascending (adjacent distances nondecreasing) and has exactly the effective
limit's length; no station-ID tie-break is applied, so the relative order
of equal-distance stations is unspecified. -/
theorem C8_output_distance_sorted (calcDist : ℚ → ℚ → ℚ → ℚ → ℚ)
    (lat lon : ℚ) (limit : Int) (stations out : List Station)
    (h : findNearestRel calcDist lat lon limit stations out) :
    List.Chain' (fun a b => ¬ b.distance < a.distance) out ∧
    out.length = effLimit limit stations.length := by
  obtain ⟨-, -, sorted, hperm, hchain, hout⟩ := h
  constructor
  · rw [hout, List.chain'_map]
    exact List.Chain'.take hchain _
  · rw [hout]
    have hlen : sorted.length = stations.length := by
      rw [hperm.length_eq, List.length_map]
    rw [List.length_map, List.length_take, hlen]
    exact Nat.min_eq_left (Nat.min_le_right _ _)

/-- Witness for C8 (amended) on the concrete tie instance. -/
theorem C8_output_distance_sorted_witness :
    List.Chain' (fun a b : Station => ¬ b.distance < a.distance)
      [{ stationB with distance := 0 }, { stationA with distance := 0 }] ∧
    ([{ stationB with distance := 0 },
      { stationA with distance := 0 }] : List Station).length
      = effLimit 2 ([stationA, stationB] : List Station).length :=
  C8_output_distance_sorted (fun _ _ _ _ => 0) 0 0 2 [stationA, stationB] _
    findNearestRel_tie_descending

end Flowebb

/-! ## Claim C9 -/

namespace Flowebb

/-- C9 counterexample: with the `backend-go/internal/cache/stations.go`
variant the reader receives the cache's internal slice itself (reference
0); assigning `stationB` through it changes what the very same cache
reference — and hence a subsequent `GetStations` — yields. -/
theorem C9_nocopy_reader_mutation_visible :
    (getStationsNoCopy 1000 stationCache0 heap0).1 = some stationCache0.stationsRef ∧
    heapGet heap0 stationCache0.stationsRef = [stationA] ∧
    heapGet (heapWrite heap0 stationCache0.stationsRef 0 stationB)
      stationCache0.stationsRef = [stationB] ∧
    ([stationB] : List Station) ≠ [stationA] ∧
    (getStationsNoCopy 1000 stationCache0
      (heapWrite heap0 stationCache0.stationsRef 0 stationB)).1
      = some stationCache0.stationsRef := by
  refine ⟨rfl, rfl, rfl, by decide, rfl⟩

/-- C9 (amended): the `src/unnamed/part_012` variant of
`StationCache.GetStations` returns a defensive copy: a fresh reference
distinct from the cache's, so that writing any element through the
returned slice leaves the stations behind the cache's own reference —
and hence every subsequent `GetStations` — unchanged.  The
`backend-go/internal/cache/stations.go` variant returns the internal
slice itself, for which the invariant fails. -/
theorem C9_copy_get_is_defensive (now : Int) (st : StationCacheState)
    (h : StationHeap) (i : Nat) (v : Station)
    (href : st.stationsRef < h.arrays.length)
    (hfresh : ¬ stationCacheExpired now st) :
    ∃ r h', getStationsCopy now st h = (some r, h') ∧
      r ≠ st.stationsRef ∧
      heapGet (heapWrite h' r i v) st.stationsRef = heapGet h st.stationsRef := by
  refine ⟨h.arrays.length, { arrays := h.arrays ++ [heapGet h st.stationsRef] },
    ?_, ?_, ?_⟩
  · simp [getStationsCopy, hfresh, heapAlloc]
  · omega
  · have hlt : st.stationsRef <
        ((h.arrays ++ [heapGet h st.stationsRef]).set h.arrays.length
          ((heapGet { arrays := h.arrays ++ [heapGet h st.stationsRef] }
            h.arrays.length).set i v)).length := by
      simp
      omega
    rw [show heapGet (heapWrite
        { arrays := h.arrays ++ [heapGet h st.stationsRef] }
        h.arrays.length i v) st.stationsRef
      = ((h.arrays ++ [heapGet h st.stationsRef]).set h.arrays.length
          ((heapGet { arrays := h.arrays ++ [heapGet h st.stationsRef] }
            h.arrays.length).set i v)).getD st.stationsRef [] from rfl]
    rw [List.getD_eq_getElem _ _ hlt]
    rw [List.getElem_set_ne (by omega)]
    have hlt2 : st.stationsRef < (h.arrays ++ [heapGet h st.stationsRef]).length := by
      simp
      omega
    rw [show (h.arrays ++ [heapGet h st.stationsRef])[st.stationsRef]
      = (h.arrays ++ [heapGet h st.stationsRef]).getD st.stationsRef [] from
        (List.getD_eq_getElem _ _ hlt2).symm]
    rw [List.getD_append _ _ _ _ href]
    rfl

/-- Witness for C9 (amended) on the concrete one-slice heap. -/
theorem C9_copy_get_is_defensive_witness :
    ∃ r h', getStationsCopy 1000 stationCache0 heap0 = (some r, h') ∧
      r ≠ stationCache0.stationsRef ∧
      heapGet (heapWrite h' r 0 stationB) stationCache0.stationsRef
        = heapGet heap0 stationCache0.stationsRef :=
  C9_copy_get_is_defensive 1000 stationCache0 heap0 0 stationB
    (by decide) (by decide)

end Flowebb
